import Mathlib

/-!
Verification development for the incremental ETL engine of the
`Progetto_Spindox` repository (content-addressed drop-zone detector,
idempotent bronze loader, silver dedup/typing, gold star-schema build,
quality gates).

The Python/SQL code is shallowly embedded: DuckDB rows become Lean
records with `Option` fields for nullable SQL values, SQL builtins
(`TRIM`, `NULLIF`, `COALESCE`, `try_cast`, `try_strptime`, `datediff`,
window dedup) are modelled as executable Lean functions, and each task
body becomes a pure function over lists of rows.
-/

set_option linter.unusedVariables false

/-! ## SQL timestamp and date values

DuckDB `TIMESTAMP` / `DATE` values are modelled as calendar records;
ordering and `datediff('second', _, _)` go through a proleptic-Gregorian
epoch-seconds encoding. -/

structure SqlDate where
  y : Nat
  mo : Nat
  d : Nat
deriving DecidableEq

structure SqlTs where
  date : SqlDate
  h : Nat
  mi : Nat
  s : Nat
deriving DecidableEq

def isLeapYear (y : Nat) : Bool :=
  (decide (y % 4 = 0) && decide (y % 100 ≠ 0)) || decide (y % 400 = 0)

def daysInMonth (y mo : Nat) : Nat :=
  if mo = 2 then (if isLeapYear y then 29 else 28)
  else if mo = 4 ∨ mo = 6 ∨ mo = 9 ∨ mo = 11 then 30
  else 31

/-- Days from 1 January to the first day of month `mo` (1-based) of year `y`. -/
def cumDaysBeforeMonth (y mo : Nat) : Nat :=
  (List.range (mo - 1)).foldl (fun acc m => acc + daysInMonth y (m + 1)) 0

/-- Number of leap years in `[0, y)` (proleptic Gregorian; year 0 is leap). -/
def leapYearsBelow (y : Nat) : Nat :=
  (y + 3) / 4 - (y + 99) / 100 + (y + 399) / 400

/-- Day index of a calendar date, with 0000-01-01 as day 0. -/
def dayNumber (dt : SqlDate) : Nat :=
  dt.y * 365 + leapYearsBelow dt.y + cumDaysBeforeMonth dt.y dt.mo + (dt.d - 1)

def epochDayNumber : Nat := dayNumber ⟨1970, 1, 1⟩

/-- Seconds since 1970-01-01 00:00:00 (negative before the epoch). -/
def toEpochSec (t : SqlTs) : Int :=
  ((dayNumber t.date : Int) - (epochDayNumber : Int)) * 86400
    + t.h * 3600 + t.mi * 60 + t.s

/-- Model of `datediff('second', a, b)` on whole-second timestamps. -/
def datediffSec (a b : SqlTs) : Int := toEpochSec b - toEpochSec a

/-! ## Text parsing primitives (model of DuckDB `try_strptime` / `try_cast`) -/

def digitVal? (c : Char) : Option Nat :=
  if 48 ≤ c.toNat ∧ c.toNat ≤ 57 then some (c.toNat - 48) else none

/-- Read up to `k` leading digits. -/
def readDigits : Nat → List Char → List Nat × List Char
  | 0, l => ([], l)
  | _ + 1, [] => ([], [])
  | k + 1, c :: tl =>
    match digitVal? c with
    | some v => let p := readDigits k tl; (v :: p.1, p.2)
    | none => ([], c :: tl)

def natOfDigits (ds : List Nat) : Nat := ds.foldl (fun a d => a * 10 + d) 0

/-- Parse between 1 and `maxD` digits into a `Nat`. -/
def pNum (maxD : Nat) (l : List Char) : Option (Nat × List Char) :=
  let p := readDigits maxD l
  if p.1.isEmpty then none else some (natOfDigits p.1, p.2)

def pLit (c : Char) : List Char → Option (List Char)
  | [] => none
  | x :: tl => if x = c then some tl else none

def mkValidDate (y mo d : Nat) : Option SqlDate :=
  if 1 ≤ mo ∧ mo ≤ 12 ∧ 1 ≤ d ∧ d ≤ daysInMonth y mo ∧ y ≤ 9999 then
    some ⟨y, mo, d⟩
  else none

def mkValidTs (dt : SqlDate) (h mi s : Nat) : Option SqlTs :=
  if h ≤ 23 ∧ mi ≤ 59 ∧ s ≤ 59 then some ⟨dt, h, mi, s⟩ else none

/-- AM/PM marker of strptime `%p`; `true` means PM. -/
def pAmPm : List Char → Option (Bool × List Char)
  | 'A' :: 'M' :: tl => some (false, tl)
  | 'P' :: 'M' :: tl => some (true, tl)
  | 'a' :: 'm' :: tl => some (false, tl)
  | 'p' :: 'm' :: tl => some (true, tl)
  | _ => none

/-- Model of `try_strptime(x, '%m/%d/%Y %I:%M:%S %p')`. -/
def tryStrptimeUS12 (str : String) : Option SqlTs := do
  let l := str.data
  let (mo, l) ← pNum 2 l
  let l ← pLit '/' l
  let (d, l) ← pNum 2 l
  let l ← pLit '/' l
  let (y, l) ← pNum 4 l
  let l ← pLit ' ' l
  let (h12, l) ← pNum 2 l
  let l ← pLit ':' l
  let (mi, l) ← pNum 2 l
  let l ← pLit ':' l
  let (s, l) ← pNum 2 l
  let l ← pLit ' ' l
  let (pm, l) ← pAmPm l
  if l.isEmpty ∧ 1 ≤ h12 ∧ h12 ≤ 12 then
    let h24 := (h12 % 12) + (if pm then 12 else 0)
    (mkValidDate y mo d).bind fun dt => mkValidTs dt h24 mi s
  else none

/-- Model of `try_strptime(x, '%m/%d/%Y %H:%M:%S')`. -/
def tryStrptimeUS24 (str : String) : Option SqlTs := do
  let l := str.data
  let (mo, l) ← pNum 2 l
  let l ← pLit '/' l
  let (d, l) ← pNum 2 l
  let l ← pLit '/' l
  let (y, l) ← pNum 4 l
  let l ← pLit ' ' l
  let (h, l) ← pNum 2 l
  let l ← pLit ':' l
  let (mi, l) ← pNum 2 l
  let l ← pLit ':' l
  let (s, l) ← pNum 2 l
  if l.isEmpty then (mkValidDate y mo d).bind fun dt => mkValidTs dt h mi s
  else none

/-- Model of `try_strptime(x, '%Y-%m-%d %H:%M:%S')`. -/
def tryStrptimeIso (str : String) : Option SqlTs := do
  let l := str.data
  let (y, l) ← pNum 4 l
  let l ← pLit '-' l
  let (mo, l) ← pNum 2 l
  let l ← pLit '-' l
  let (d, l) ← pNum 2 l
  let l ← pLit ' ' l
  let (h, l) ← pNum 2 l
  let l ← pLit ':' l
  let (mi, l) ← pNum 2 l
  let l ← pLit ':' l
  let (s, l) ← pNum 2 l
  if l.isEmpty then (mkValidDate y mo d).bind fun dt => mkValidTs dt h mi s
  else none

/-- Model of `try_cast(x AS TIMESTAMP)`: ISO timestamp with optional
fractional seconds (truncated), or a bare ISO date at midnight. -/
def tryCastTimestamp (str : String) : Option SqlTs := do
  let l := str.data
  let (y, l) ← pNum 4 l
  let l ← pLit '-' l
  let (mo, l) ← pNum 2 l
  let l ← pLit '-' l
  let (d, l) ← pNum 2 l
  match l with
  | [] => (mkValidDate y mo d).bind fun dt => mkValidTs dt 0 0 0
  | _ => do
    let l ← pLit ' ' l
    let (h, l) ← pNum 2 l
    let l ← pLit ':' l
    let (mi, l) ← pNum 2 l
    let l ← pLit ':' l
    let (s, l) ← pNum 2 l
    let l := match l with
      | '.' :: tl => tl.dropWhile (fun c => (digitVal? c).isSome)
      | other => other
    if l.isEmpty then (mkValidDate y mo d).bind fun dt => mkValidTs dt h mi s
    else none

/-- Model of `try_strptime(x, '%m/%d/%Y')`. -/
def tryStrptimeUSDate (str : String) : Option SqlDate := do
  let l := str.data
  let (mo, l) ← pNum 2 l
  let l ← pLit '/' l
  let (d, l) ← pNum 2 l
  let l ← pLit '/' l
  let (y, l) ← pNum 4 l
  if l.isEmpty then mkValidDate y mo d else none

/-- Model of `try_strptime(x, '%Y-%m-%d')` and of `try_cast(x AS DATE)`. -/
def tryStrptimeIsoDate (str : String) : Option SqlDate := do
  let l := str.data
  let (y, l) ← pNum 4 l
  let l ← pLit '-' l
  let (mo, l) ← pNum 2 l
  let l ← pLit '-' l
  let (d, l) ← pNum 2 l
  if l.isEmpty then mkValidDate y mo d else none

/-- Embedding of `_parse_ts_sql` (src/etl/tasks/silver.py, lines 6-18):
`COALESCE(try_strptime(col, '%m/%d/%Y %I:%M:%S %p'),
try_strptime(col, '%m/%d/%Y %H:%M:%S'),
try_strptime(col, '%Y-%m-%d %H:%M:%S'), try_cast(col AS TIMESTAMP))`.
A SQL NULL input yields NULL. -/
def parseTsSql (v : Option String) : Option SqlTs :=
  v.bind fun str =>
    (tryStrptimeUS12 str).orElse fun _ =>
    (tryStrptimeUS24 str).orElse fun _ =>
    (tryStrptimeIso str).orElse fun _ =>
    tryCastTimestamp str

/-- Embedding of `_parse_date_sql` (src/etl/tasks/silver.py, lines 21-29). -/
def parseDateSql (v : Option String) : Option SqlDate :=
  v.bind fun str =>
    (tryStrptimeUSDate str).orElse fun _ =>
    (tryStrptimeIsoDate str).orElse fun _ =>
    tryStrptimeIsoDate str

/-- Shared core of `try_cast(x AS BIGINT/INTEGER)`: optional surrounding
spaces, optional sign, decimal digits. -/
def tryCastIntAux (str : String) : Option Int :=
  let l := str.data.dropWhile (fun c => c = ' ')
  let sg : Bool × List Char :=
    match l with
    | '-' :: tl => (true, tl)
    | '+' :: tl => (false, tl)
    | other => (false, other)
  let p := readDigits sg.2.length sg.2
  if p.1.isEmpty ∨ ¬ (p.2.dropWhile (fun c => c = ' ')).isEmpty then none
  else
    let n : Int := natOfDigits p.1
    some (if sg.1 then -n else n)

/-- Model of `try_cast(x AS BIGINT)` (64-bit range check). -/
def tryCastBigint (v : Option String) : Option Int :=
  v.bind fun str => (tryCastIntAux str).bind fun n =>
    if -(2 ^ 63) ≤ n ∧ n < 2 ^ 63 then some n else none

/-- Model of `try_cast(x AS INTEGER)` (32-bit range check). -/
def tryCastInteger (v : Option String) : Option Int :=
  v.bind fun str => (tryCastIntAux str).bind fun n =>
    if -(2 ^ 31) ≤ n ∧ n < 2 ^ 31 then some n else none

/-! ## Python string primitives (ASCII model)

Used by `sanitize_column_name` (src/etl/utils.py). Characters are
modelled as Lean `Char`; `str.lower()` is modelled on the ASCII range
(the regexes in the source only ever test ASCII `[A-Z]`/`[a-z]`). -/

def pyIsUpper (c : Char) : Bool := decide ('A' ≤ c) && decide (c ≤ 'Z')

def pyIsLower (c : Char) : Bool := decide ('a' ≤ c) && decide (c ≤ 'z')

def pyIsDigitCh (c : Char) : Bool := decide ('0' ≤ c) && decide (c ≤ '9')

def pyToLower (c : Char) : Char :=
  if pyIsUpper c then Char.ofNat (c.toNat + 32) else c

/-- ASCII whitespace recognized by Python `str.strip()`. -/
def pyIsSpace (c : Char) : Bool :=
  decide (c = ' ') || decide (c = '\t') || decide (c = '\n') ||
  decide (c = '\r') || decide (c = '\x0b') || decide (c = '\x0c')

/-- Python `str.strip()` family: drop the characters satisfying `p` from
both ends. -/
def pyStrip (p : Char → Bool) (l : List Char) : List Char :=
  ((l.dropWhile p).reverse.dropWhile p).reverse

/-- Python `str.replace(a, b)` for single characters. -/
def pyReplaceChar (a b : Char) (l : List Char) : List Char :=
  l.map fun c => if c = a then b else c

/-- Left-to-right scanner for `re.sub(r"([A-Z]+)([A-Z][a-z])", r"\1_\2", s)`:
`acc` holds the reversed run of uppercase letters read so far.  A match
needs at least two uppercase letters followed by a lowercase one; the
greedy first group then takes all but the last uppercase letter. -/
def acronymSubAux (acc : List Char) : List Char → List Char
  | [] => acc.reverse
  | d :: tl =>
    if pyIsUpper d then acronymSubAux (d :: acc) tl
    else if 2 ≤ acc.length ∧ pyIsLower d then
      acc.reverse.dropLast ++ '_' :: acc.headD ' ' :: d :: acronymSubAux [] tl
    else acc.reverse ++ d :: acronymSubAux [] tl

def acronymSub (l : List Char) : List Char := acronymSubAux [] l

/-- Scanner states for `re.sub(r"(.)([A-Z][a-z]+)", r"\1_\2", s)`:
`scan` is an ordinary scan position, `g2u` is the uppercase letter of a
match being copied out, `run` is the greedy `[a-z]+` tail of a match
(consumed, so no new match may start inside it). -/
inductive Cam1Mode where
  | scan : Cam1Mode
  | g2u : Cam1Mode
  | run : Cam1Mode

/-- Left-to-right scanner for `re.sub(r"(.)([A-Z][a-z]+)", r"\1_\2", s)`.
`.` does not match a newline (no `re.DOTALL` in the source). -/
def camel1SubAux : Cam1Mode → List Char → List Char
  | _, [] => []
  | .g2u, c :: tl => c :: camel1SubAux .run tl
  | .scan, [c] => [c]
  | .scan, [c, d] => [c, d]
  | .scan, c :: d :: e :: tl =>
    if c ≠ '\n' ∧ pyIsUpper d ∧ pyIsLower e then
      c :: '_' :: camel1SubAux .g2u (d :: e :: tl)
    else c :: camel1SubAux .scan (d :: e :: tl)
  | .run, [c] => [c]
  | .run, [c, d] => [c, d]
  | .run, c :: d :: e :: tl =>
    if pyIsLower c then c :: camel1SubAux .run (d :: e :: tl)
    else if c ≠ '\n' ∧ pyIsUpper d ∧ pyIsLower e then
      c :: '_' :: camel1SubAux .g2u (d :: e :: tl)
    else c :: camel1SubAux .scan (d :: e :: tl)

def camel1Sub (l : List Char) : List Char := camel1SubAux .scan l

/-- Left-to-right scanner for `re.sub(r"([a-z0-9])([A-Z])", r"\1_\2", s)`
(both matched characters are consumed, so matches do not overlap). -/
def camel2Sub : List Char → List Char
  | [] => []
  | [c] => [c]
  | c :: d :: tl =>
    if (pyIsLower c || pyIsDigitCh c) && pyIsUpper d then
      c :: '_' :: d :: camel2Sub tl
    else c :: camel2Sub (d :: tl)

/-- `re.sub(r"__+", "_", s)`: collapse every run of underscores to one.
The flag records whether the previous character was an underscore. -/
def collapseUnderscoresAux : Bool → List Char → List Char
  | _, [] => []
  | inRun, c :: tl =>
    if c = '_' then
      if inRun then collapseUnderscoresAux true tl
      else '_' :: collapseUnderscoresAux true tl
    else c :: collapseUnderscoresAux false tl

def collapseUnderscores (l : List Char) : List Char :=
  collapseUnderscoresAux false l

/-- Embedding of `sanitize_column_name` (src/etl/utils.py, lines 46-69):
strip surrounding whitespace; replace space/hyphen/dot by underscore;
apply the acronym and camel-case regex substitutions; collapse repeated
underscores; lowercase; strip surrounding underscores. -/
def sanitize_column_name (col : String) : String :=
  let c := pyStrip pyIsSpace col.data
  let c := pyReplaceChar ' ' '_' c
  let c := pyReplaceChar '-' '_' c
  let c := pyReplaceChar '.' '_' c
  let c := acronymSub c
  let c := camel1Sub c
  let c := camel2Sub c
  let c := collapseUnderscores c
  let c := c.map pyToLower
  String.mk (pyStrip (fun ch => ch = '_') c)

/-- Embedding of `sanitize_columns` (src/etl/utils.py, lines 72-73). -/
def sanitize_columns (columns : List String) : List String :=
  columns.map sanitize_column_name

example : sanitize_column_name ("Received DtTm") = ("received_dt_tm") := by decide

example : sanitize_column_name ("RowID") = ("row_id") := by decide

example : sanitize_column_name ("Zipcode of Incident") = ("zipcode_of_incident") := by decide

/-! ## Dataset-type detection (Lake Writer vs Bronze Loader)

Two independent implementations exist in the source; claim C5 compares
them. -/

def pyLowerString (s : String) : String := String.mk (s.data.map pyToLower)

/-- Check whether `needle` occurs as a contiguous sublist of `hay`. -/
def listContainsSub (needle : List Char) : List Char → Bool
  | [] => needle.isEmpty
  | c :: tl => needle.isPrefixOf (c :: tl) || listContainsSub needle tl

/-- Python `needle in hay` on strings (substring containment). -/
def strContains (hay needle : String) : Bool :=
  listContainsSub needle.data hay.data

/-- Model of `pathlib.Path(p).name` (POSIX): the part after the last
slash. -/
def pathBasename (p : String) : String :=
  String.mk ((p.data.reverse.takeWhile (fun c => c ≠ '/')).reverse)

/-- Embedding of `_detect_dataset_type` from src/etl/tasks/Lake_writer.py
(lines 28-45): incidents take priority whenever an `incident_number`
column is present; the path is consulted only when neither key column
exists. -/
def lakeDetectDatasetType (cols : List String) (file_path : String) : String :=
  if cols.contains ("incident_number") then ("fire_incidents")
  else if cols.contains ("call_number") then ("fire_calls")
  else
    let name := pyLowerString (pathBasename file_path)
    if strContains name ("incident") then ("fire_incidents")
    else if strContains name ("call") then ("fire_calls")
    else ("fire_incidents")

/-- Embedding of `_detect_dataset_type` from
src/etl/tasks/bronze_schedule.py (lines 77-101): when both key columns
are present the tie is broken by substrings of the resolved path,
defaulting to incidents. -/
def bronzeDetectDatasetType (cols : List String) (source_path : String) : String :=
  let cols_lc := cols.map pyLowerString
  let path_lc := pyLowerString source_path
  let has_call := cols_lc.contains ("call_number") || cols_lc.contains ("callnumber")
  let has_inc := cols_lc.contains ("incident_number") || cols_lc.contains ("incidentnumber")
  if has_inc && has_call then
    if strContains path_lc ("fire_calls") || strContains path_lc ("calls") ||
        strContains path_lc ("call") then ("calls")
    else if strContains path_lc ("fire_incidents") || strContains path_lc ("incidents") ||
        strContains path_lc ("incident") then ("incidents")
    else ("incidents")
  else if has_inc then ("incidents")
  else if has_call then ("calls")
  else if strContains path_lc ("incident") then ("incidents")
  else if strContains path_lc ("call") then ("calls")
  else ("incidents")

/-- The Lake Writer names datasets `fire_calls` / `fire_incidents` while
the Bronze Loader names the same two datasets `calls` / `incidents`;
this is the evident correspondence between the two vocabularies. -/
def lakeDatasetToBronzeName (s : String) : String :=
  if s = ("fire_calls") then ("calls")
  else if s = ("fire_incidents") then ("incidents")
  else s

/-! ## Bronze loader: staged rows and the anti-join insert (C1, C9)

A bronze table is a list of rows.  The business payload is abstract
(`α`); the four technical columns of src/etl/tasks/bronze_schedule.py
are explicit.  `_source_row_number` is stored by the code as the
`VARCHAR` rendering of `row_number() OVER () - 1`; since that rendering
is a canonical decimal, equality of the stored strings coincides with
equality of the `Nat` ordinals used here. -/

structure BronzeEntry (α : Type) where
  payload : α
  source_sha256 : String
  source_row_number : Nat
  source_file_path : String
  ingested_at_utc : String
deriving DecidableEq

/-- The staged `SELECT` of the idempotent insert: every source row with
the technical columns attached; `row_number() OVER () - 1` becomes the
0-based position in the file. -/
def stageSourceRows {α : Type} (rows : List α) (sha path now : String) :
    List (BronzeEntry α) :=
  rows.enum.map fun p => ⟨p.2, sha, p.1, path, now⟩

/-- The `EXISTS (SELECT 1 FROM target b WHERE b._source_sha256 = t._source_sha256
AND b._source_row_number = t._source_row_number)` test. -/
def bronzeHasKey {α : Type} (target : List (BronzeEntry α)) (sha : String) (n : Nat) : Bool :=
  target.any fun b =>
    decide (b.source_sha256 = sha) && decide (b.source_row_number = n)

/-- The `WHERE NOT EXISTS (...)` anti-join filter of the insert
(src/etl/tasks/bronze_schedule.py, lines 244-261). -/
def antiJoinInsert {α : Type} (target staged : List (BronzeEntry α)) :
    List (BronzeEntry α) :=
  staged.filter fun t =>
    !(bronzeHasKey target t.source_sha256 t.source_row_number)

/-- `SELECT COUNT(*) FROM target WHERE _source_sha256 = ?`. -/
def countForSha {α : Type} (target : List (BronzeEntry α)) (sha : String) : Nat :=
  (target.filter fun b => decide (b.source_sha256 = sha)).length

structure IngestFileResult (α : Type) where
  table : List (BronzeEntry α)
  inserted_now : Nat
  total_for_sha : Nat

/-- One file's pass through steps 7-9 of `ingest_bronze_incremental`
(src/etl/tasks/bronze_schedule.py, lines 237-270): count the rows already
present for this content hash, run the anti-joined insert, count again;
`inserted_now` is the difference. -/
def ingestBronzeFile {α : Type} (target : List (BronzeEntry α)) (rows : List α)
    (sha path now : String) : IngestFileResult α :=
  let staged := stageSourceRows rows sha path now
  let toInsert := antiJoinInsert target staged
  let before := countForSha target sha
  let table := target ++ toInsert
  let after := countForSha table sha
  ⟨table, after - before, after⟩

/-! ## Ingestion ledger and registry (meta schema) -/

/-- Row of `meta.ingested_contents` (src/etl/tasks/ingestion_meta.py,
lines 51-57). -/
structure RegistryEntry where
  pipeline_name : String
  content_sha256 : String
  first_success_at : String
  last_success_at : String
deriving DecidableEq

/-- Row of `meta.ingestion_log`, restricted to the columns the verified
tasks read or write (run id, pipeline, file identity, status, error). -/
structure LogEntry where
  run_id : String
  pipeline_name : String
  file_name : String
  file_path : String
  file_sha256 : String
  status : String
  error_message : Option String
deriving DecidableEq

/-- Embedding of `_is_already_successfully_ingested`
(src/etl/tasks/ingestion_meta.py, lines 140-156): a `SELECT 1 ... WHERE
pipeline_name = ? AND content_sha256 = ? LIMIT 1` probe. -/
def isAlreadySuccessfullyIngested (registry : List RegistryEntry)
    (pipeline_name sha256 : String) : Bool :=
  registry.any fun r =>
    decide (r.pipeline_name = pipeline_name) && decide (r.content_sha256 = sha256)

/-! ## Drop-zone detector (C3) -/

/-- `FileFingerprint` dataclass (src/etl/tasks/ingestion_meta.py,
lines 64-70); `sha256` is the hex digest of the file bytes. -/
structure FileFingerprint where
  file_name : String
  file_path : String
  file_size_bytes : Nat
  file_mtime_utc : String
  sha256 : String
deriving DecidableEq

/-- One file found by the scan, together with the outcome of
`_fingerprint_file` on it (`.error` models a raised exception). -/
structure DropFile where
  file_name : String
  file_path : String
  fingerprintResult : Except String FileFingerprint

/-- Status and error message logged for one scanned file by
`detect_and_log_client_drop` (src/etl/tasks/ingestion_meta.py,
lines 226-268): SKIPPED when the (truthy) hash is already registered,
PENDING otherwise, FAILED when fingerprinting raised. -/
def detectStatusFor (registry : List RegistryEntry) (pipeline_name : String)
    (f : DropFile) : String × Option String :=
  match f.fingerprintResult with
  | .ok fp =>
    if fp.sha256 ≠ ("") ∧ isAlreadySuccessfullyIngested registry pipeline_name fp.sha256 then
      (("SKIPPED"), some ("already_ingested"))
    else (("PENDING"), none)
  | .error e => (("FAILED"), some e)

/-- Sha recorded in the log row for one scanned file: the fingerprint
hash, or the empty string of the dummy fingerprint on failure. -/
def detectShaFor (f : DropFile) : String :=
  match f.fingerprintResult with
  | .ok fp => fp.sha256
  | .error _ => ("")

structure DetectSummary where
  logs : List LogEntry
  pending : Nat
  skipped : Nat
  failed : Nat
deriving DecidableEq

/-- The scan loop of `detect_and_log_client_drop`: one `_insert_log` row
per file, counters incremented per classification. -/
def detectAndLogClientDrop (registry : List RegistryEntry)
    (run_id pipeline_name : String) (files : List DropFile) : DetectSummary :=
  files.foldl
    (fun acc f =>
      let st := detectStatusFor registry pipeline_name f
      let entry : LogEntry :=
        ⟨run_id, pipeline_name, f.file_name, f.file_path, detectShaFor f, st.1, st.2⟩
      { logs := acc.logs ++ [entry]
        pending := acc.pending + (if st.1 = ("PENDING") then 1 else 0)
        skipped := acc.skipped + (if st.1 = ("SKIPPED") then 1 else 0)
        failed := acc.failed + (if st.1 = ("FAILED") then 1 else 0) })
    ⟨[], 0, 0, 0⟩

/-! ## Bronze incremental run over the ledger (C7) -/

structure MetaState where
  ingestion_log : List LogEntry
  ingested_contents : List RegistryEntry
deriving DecidableEq

structure PipeState (α : Type) where
  meta : MetaState
  bronze_calls : List (BronzeEntry α)
  bronze_incidents : List (BronzeEntry α)
deriving DecidableEq

/-- One PENDING ledger row as the loop of `ingest_bronze_incremental`
sees it, together with the outcome of reading/describing its source
(`readResult = .error` models an exception while opening or describing
the file; `insertFails` injects a failure of the insert statement
itself). -/
structure FileJob (α : Type) where
  file_path : String
  file_sha256 : String
  src_cols : List String
  readResult : Except String (List α)
  insertFails : Bool

/-- Embedding of `_mark_done_and_upsert_success`
(src/etl/tasks/bronze_schedule.py, lines 104-130): the matching ledger
rows go to DONE with the error cleared, and the registry is upserted
(insert, or bump `last_success_at` on conflict). -/
def markDoneAndUpsertSuccess (m : MetaState)
    (run_id pipeline_name file_sha256 now : String) : MetaState :=
  { ingestion_log := m.ingestion_log.map fun e =>
      if e.run_id = run_id ∧ e.pipeline_name = pipeline_name ∧ e.file_sha256 = file_sha256
      then { e with status := ("DONE"), error_message := none } else e
    ingested_contents :=
      if isAlreadySuccessfullyIngested m.ingested_contents pipeline_name file_sha256 then
        m.ingested_contents.map fun r =>
          if r.pipeline_name = pipeline_name ∧ r.content_sha256 = file_sha256
          then { r with last_success_at := now } else r
      else m.ingested_contents ++ [⟨pipeline_name, file_sha256, now, now⟩] }

/-- One iteration of the per-file loop of `ingest_bronze_incremental`
(src/etl/tasks/bronze_schedule.py, lines 167-283).  All fallible steps
(describe/read of the source, the insert statement) happen strictly
before `_mark_done_and_upsert_success`; when one of them raises, the
meta state is returned untouched together with the propagating error. -/
def processPendingFile {α : Type} (st : PipeState α)
    (run_id pipeline_name now : String) (j : FileJob α) :
    PipeState α × Option String :=
  match j.readResult with
  | .error e => (st, some e)
  | .ok rows =>
    let dataset := bronzeDetectDatasetType j.src_cols j.file_path
    if j.insertFails then (st, some ("insert failed"))
    else
      let st1 :=
        if dataset = ("calls") then
          { st with bronze_calls :=
              (ingestBronzeFile st.bronze_calls rows j.file_sha256 j.file_path now).table }
        else
          { st with bronze_incidents :=
              (ingestBronzeFile st.bronze_incidents rows j.file_sha256 j.file_path now).table }
      ({ st1 with meta := markDoneAndUpsertSuccess st1.meta run_id pipeline_name j.file_sha256 now },
        none)

/-- The file loop: PENDING jobs processed in order; the first exception
stops the task (`retries=0`) with the database state reached so far. -/
def runBronzeIncremental {α : Type} :
    PipeState α → String → String → String → List (FileJob α) →
    PipeState α × Option String
  | st, _, _, _, [] => (st, none)
  | st, run_id, pipeline_name, now, j :: rest =>
    let r := processPendingFile st run_id pipeline_name now j
    match r.2 with
    | some e => (r.1, some e)
    | none => runBronzeIncremental r.1 run_id pipeline_name now rest

/-- Ledger rows for one (run, pipeline, sha) triple, as the `UPDATE` of
`_mark_done_and_upsert_success` selects them. -/
def logRowsFor (m : MetaState) (run_id pipeline_name sha : String) : List LogEntry :=
  m.ingestion_log.filter fun e =>
    decide (e.run_id = run_id) && decide (e.pipeline_name = pipeline_name) &&
      decide (e.file_sha256 = sha)

/-- Registry rows for one (pipeline, sha) pair. -/
def registryRowsFor (m : MetaState) (pipeline_name sha : String) : List RegistryEntry :=
  m.ingested_contents.filter fun r =>
    decide (r.pipeline_name = pipeline_name) && decide (r.content_sha256 = sha)

/-! ## Kernel-computable string order (DuckDB binary collation model)

Used by the silver dedup tie-break (`ORDER BY rowid DESC`). -/

def charLtB (a b : Char) : Bool := decide (a.toNat < b.toNat)

def listCharLtB : List Char → List Char → Bool
  | [], [] => false
  | [], _ :: _ => true
  | _ :: _, [] => false
  | a :: as, b :: bs => charLtB a b || (decide (a = b) && listCharLtB as bs)

/-- Strict codepoint-lexicographic order on strings. -/
def strLtB (a b : String) : Bool := listCharLtB a.data b.data

/-! ## Silver phase 2: bronze.calls and silver.calls_clean (C4, C6)

`clean_silver_phase2` (src/etl/tasks/silver_phase_2.py, lines 34-196)
resolves column-name variants against the actual bronze schema.  The
embedding fixes the schema written by the phase-2 Bronze Loader for the
fire-calls extracts: the `*_dt_tm` timestamp spellings, the canonical
business names, and a `row_id` column (the sanitized form of the source
`RowID` header), so `_pick(cols, "rowid", "row_id")` resolves to
`row_id` and every `_pick_or_null` resolves to its listed name.  All
business columns are bronze `VARCHAR` (`Option String`); the technical
columns are as in `BronzeEntry`. -/

structure BronzeCallsRow where
  call_number : Option String
  incident_number : Option String
  unit_id : Option String
  call_type : Option String
  call_type_group : Option String
  original_priority : Option String
  priority : Option String
  final_priority : Option String
  als_unit : Option String
  call_date : Option String
  watch_date : Option String
  received_dt_tm : Option String
  entry_dt_tm : Option String
  dispatch_dt_tm : Option String
  response_dt_tm : Option String
  on_scene_dt_tm : Option String
  transport_dt_tm : Option String
  hospital_dt_tm : Option String
  available_dt_tm : Option String
  address : Option String
  city : Option String
  zipcode_of_incident : Option String
  battalion : Option String
  station_area : Option String
  box : Option String
  supervisor_district : Option String
  neighborhoods_analysis_boundaries : Option String
  location : Option String
  call_final_disposition : Option String
  number_of_alarms : Option String
  unit_type : Option String
  unit_sequence_in_call_dispatch : Option String
  fire_prevention_district : Option String
  row_id : Option String
  source_row_number : Nat
  source_sha256 : String
  source_file_path : String
  ingested_at_utc : String
deriving DecidableEq

structure CallsCleanRow where
  call_number : Option Int
  incident_number : Option Int
  unit_id : Option String
  call_type : Option String
  call_type_group : Option String
  original_priority : Option Int
  priority : Option Int
  final_priority : Option Int
  als_unit : Option String
  call_date : Option SqlDate
  watch_date : Option SqlDate
  received_ts : Option SqlTs
  entry_ts : Option SqlTs
  dispatch_ts : Option SqlTs
  response_ts : Option SqlTs
  on_scene_ts : Option SqlTs
  transport_ts : Option SqlTs
  hospital_ts : Option SqlTs
  available_ts : Option SqlTs
  address : Option String
  city : Option String
  zipcode_of_incident : Option Int
  battalion : Option String
  station_area : Option String
  box : Option String
  supervisor_district : Option Int
  neighborhoods_analysis_boundaries : Option String
  location : Option String
  call_final_disposition : Option String
  number_of_alarms : Option Int
  unit_type : Option String
  unit_sequence_in_call_dispatch : Option Int
  fire_prevention_district : Option String
  rowid : Option String
  ingested_ts : Option SqlTs
  response_time_sec : Option Int
  dispatch_delay_sec : Option Int
  travel_time_sec : Option Int
deriving DecidableEq

/-- The derived-metric pattern of clean_silver_phase2 (lines 147-190):
`CASE WHEN a IS NOT NULL AND b IS NOT NULL THEN CASE WHEN
datediff('second', a, b) >= 0 THEN datediff('second', a, b) ELSE NULL
END ELSE NULL END`. -/
def elapsedSecGuard (a b : Option SqlTs) : Option Int :=
  match a, b with
  | some x, some y => if 0 ≤ datediffSec x y then some (datediffSec x y) else none
  | _, _ => none

/-- The `base` CTE of the phase-2 calls query plus its outer SELECT:
typing, timestamp parsing and the three derived metrics, one output row
per bronze row (dedup happens afterwards in `QUALIFY`). -/
def mkCallsCleanRow (b : BronzeCallsRow) : CallsCleanRow :=
  let received_ts := parseTsSql b.received_dt_tm
  let dispatch_ts := parseTsSql b.dispatch_dt_tm
  let on_scene_ts := parseTsSql b.on_scene_dt_tm
  { call_number := tryCastBigint b.call_number
    incident_number := tryCastBigint b.incident_number
    unit_id := b.unit_id
    call_type := b.call_type
    call_type_group := b.call_type_group
    original_priority := tryCastInteger b.original_priority
    priority := tryCastInteger b.priority
    final_priority := tryCastInteger b.final_priority
    als_unit := b.als_unit
    call_date := parseDateSql b.call_date
    watch_date := parseDateSql b.watch_date
    received_ts := received_ts
    entry_ts := parseTsSql b.entry_dt_tm
    dispatch_ts := dispatch_ts
    response_ts := parseTsSql b.response_dt_tm
    on_scene_ts := on_scene_ts
    transport_ts := parseTsSql b.transport_dt_tm
    hospital_ts := parseTsSql b.hospital_dt_tm
    available_ts := parseTsSql b.available_dt_tm
    address := b.address
    city := b.city
    zipcode_of_incident := tryCastInteger b.zipcode_of_incident
    battalion := b.battalion
    station_area := b.station_area
    box := b.box
    supervisor_district := tryCastInteger b.supervisor_district
    neighborhoods_analysis_boundaries := b.neighborhoods_analysis_boundaries
    location := b.location
    call_final_disposition := b.call_final_disposition
    number_of_alarms := tryCastInteger b.number_of_alarms
    unit_type := b.unit_type
    unit_sequence_in_call_dispatch := tryCastInteger b.unit_sequence_in_call_dispatch
    fire_prevention_district := b.fire_prevention_district
    rowid := b.row_id
    ingested_ts := tryCastTimestamp b.ingested_at_utc
    response_time_sec := elapsedSecGuard received_ts on_scene_ts
    dispatch_delay_sec := elapsedSecGuard received_ts dispatch_ts
    travel_time_sec := elapsedSecGuard dispatch_ts on_scene_ts }

/-- `COALESCE(ts, TIMESTAMP '1900-01-01')`, as epoch seconds. -/
def coalTs1900 (t : Option SqlTs) : Int :=
  toEpochSec (t.getD ⟨⟨1900, 1, 1⟩, 0, 0, 0⟩)

/-- `ORDER BY rowid DESC` with DuckDB's default NULLS LAST: a non-null
value sorts before NULL, and larger strings sort first. -/
def rowidDescBefore (a b : Option String) : Bool :=
  match a, b with
  | some x, some y => strLtB y x
  | some _, none => true
  | none, _ => false

/-- Strict "sorts before" order of the phase-2 QUALIFY clause on
(index, row) pairs: received timestamp descending, then ingestion
timestamp descending, then `rowid` descending (all coalesced as in the
source), with the physical position as the final deterministic
tie-break standing in for the engine's arbitrary tie resolution. -/
def callsEntryBefore (a b : Nat × CallsCleanRow) : Bool :=
  let ra := coalTs1900 a.2.received_ts
  let rb := coalTs1900 b.2.received_ts
  let ia := coalTs1900 a.2.ingested_ts
  let ib := coalTs1900 b.2.ingested_ts
  decide (rb < ra) ||
    (decide (ra = rb) && (decide (ib < ia) ||
      (decide (ia = ib) && (rowidDescBefore a.2.rowid b.2.rowid ||
        (decide (a.2.rowid = b.2.rowid) && decide (a.1 < b.1))))))

/-- `QUALIFY ROW_NUMBER() OVER (PARTITION BY call_number ORDER BY ...) = 1`:
keep exactly the rows that no row of the same partition sorts before. -/
def qualifyCallsDedup (base : List CallsCleanRow) : List CallsCleanRow :=
  (base.enum.filter fun p =>
    base.enum.all fun q =>
      !(decide (q.2.call_number = p.2.call_number) && callsEntryBefore q p)).map
    Prod.snd

/-- Embedding of the `silver.calls_clean` build of `clean_silver_phase2`
(src/etl/tasks/silver_phase_2.py, lines 92-196). -/
def cleanSilverCallsPhase2 (bronze : List BronzeCallsRow) : List CallsCleanRow :=
  qualifyCallsDedup (bronze.map mkCallsCleanRow)

/-! ### The dedup tuple claimed by the spec (for C4)

The spec says the surviving row per key carries the maximum
(event time, ingestion time, row ordinal) tuple, where the row ordinal
is the bronze `_source_row_number`. -/

/-- Lexicographic `≤` on (event time, ingestion time, row ordinal), with
the timestamps coalesced exactly as the code's ORDER BY does. -/
def c4SpecTupleLe (a b : BronzeCallsRow) : Prop :=
  let ra := coalTs1900 (parseTsSql a.received_dt_tm)
  let rb := coalTs1900 (parseTsSql b.received_dt_tm)
  let ia := coalTs1900 (tryCastTimestamp a.ingested_at_utc)
  let ib := coalTs1900 (tryCastTimestamp b.ingested_at_utc)
  ra < rb ∨ (ra = rb ∧ (ia < ib ∨ (ia = ib ∧
    a.source_row_number ≤ b.source_row_number)))

instance (a b : BronzeCallsRow) : Decidable (c4SpecTupleLe a b) := by
  unfold c4SpecTupleLe; exact inferInstance

/-- Claim C4 instantiated at one bronze table: for every natural key
present, the `calls_clean` rows with that key are exactly the cleaned
form of the bronze row carrying the maximum
(event time, ingestion time, row ordinal) tuple in its partition. -/
def c4ClaimAt (bronze : List BronzeCallsRow) : Prop :=
  ∀ b ∈ bronze, ∀ m ∈ bronze,
    tryCastBigint m.call_number = tryCastBigint b.call_number →
    (∀ b2 ∈ bronze,
      tryCastBigint b2.call_number = tryCastBigint b.call_number →
      c4SpecTupleLe b2 m) →
    (cleanSilverCallsPhase2 bronze).filter
        (fun r => r.call_number = tryCastBigint b.call_number) =
      [mkCallsCleanRow m]

/-! ## SQL text normalization helpers (gold layer) -/

/-- SQL `TRIM(x)`: strip leading and trailing spaces. -/
def sqlTrim (s : String) : String :=
  String.mk (((s.data.dropWhile fun c => c = ' ').reverse.dropWhile fun c => c = ' ').reverse)

/-- `TRIM` lifted to nullable values (SQL functions propagate NULL). -/
def optTrim (v : Option String) : Option String := v.map sqlTrim

/-- SQL `NULLIF(x, '')`. -/
def nullifEmpty (v : Option String) : Option String :=
  if v = some ("") then none else v

/-- The `NULLIF(TRIM(x), '')` idiom used throughout gold. -/
def nullifTrim (v : Option String) : Option String := nullifEmpty (optTrim v)

/-- SQL `COALESCE(a, b)`. -/
def optCoalesce {α : Type} (a b : Option α) : Option α :=
  a.orElse fun _ => b

/-- SQL `CAST(x AS VARCHAR)` on a nullable integer. -/
def intToVarchar (v : Option Int) : Option String := v.map fun n => toString n

/-- SQL `COALESCE(x, '')`. -/
def coalEmpty (v : Option String) : String := v.getD ("")

/-! ## Silver incidents rows (gold input)

`silver.incidents_clean` columns read by the Gold Builder; the claims
quantify over arbitrary contents of this table. -/

structure IncidentsCleanRow where
  incident_number : Option Int
  call_number : Option Int
  exposure_number : Option Int
  incident_date : Option SqlDate
  alarm_ts : Option SqlTs
  arrival_ts : Option SqlTs
  close_ts : Option SqlTs
  address : Option String
  city : Option String
  zipcode : Option Int
  battalion : Option String
  station_area : Option String
  box : Option String
  supervisor_district : Option Int
  neighborhood_district : Option String
  location : Option String
  number_of_alarms : Option Int
  suppression_units : Option Int
  suppression_personnel : Option Int
  ems_units : Option Int
  ems_personnel : Option Int
  other_units : Option Int
  other_personnel : Option Int
  estimated_property_loss : Option Int
  estimated_contents_loss : Option Int
  primary_situation : Option String
  mutual_aid : Option String
deriving DecidableEq

/-- SQL `=` between nullable integers inside a join condition
(null-rejecting: a NULL on either side never matches). -/
def optEqNotNull (a b : Option Int) : Bool :=
  match a, b with
  | some x, some y => decide (x = y)
  | _, _ => false

/-- `FROM silver.calls_clean c LEFT JOIN silver.incidents_clean i ON
i.incident_number = c.incident_number`: every call row paired with each
matching incident row, or with `none` when no incident matches. -/
def leftJoinCallsIncidents (calls : List CallsCleanRow)
    (incidents : List IncidentsCleanRow) :
    List (CallsCleanRow × Option IncidentsCleanRow) :=
  calls.flatMap fun c =>
    match incidents.filter fun i => optEqNotNull i.incident_number c.incident_number with
    | [] => [(c, none)]
    | ms => ms.map fun i => (c, some i)

/-! ## Location identity (C2): the two normalizations and hash inputs -/

/-- The location columns selected by the `base` CTEs of both
`build_dim_location` (src/etl/tasks/gold.py, lines 105-130) and
`build_fact_incident` (lines 228-248), as functions of the joined pair. -/
structure LocSourceFields where
  c_address : Option String
  c_city : Option String
  c_zipcode : Option Int
  c_neighborhood : Option String
  c_battalion : Option String
  c_station_area : Option String
  c_supervisor_district : Option Int
  c_fire_prevention_district : Option String
  c_box : Option String
  c_location_point : Option String
  i_address : Option String
  i_city : Option String
  i_zipcode : Option Int
  i_neighborhood : Option String
  i_battalion : Option String
  i_station_area : Option String
  i_supervisor_district : Option Int
  i_box : Option String
  i_location_point : Option String
deriving DecidableEq

def locSourceOf (p : CallsCleanRow × Option IncidentsCleanRow) : LocSourceFields :=
  { c_address := p.1.address
    c_city := p.1.city
    c_zipcode := p.1.zipcode_of_incident
    c_neighborhood := p.1.neighborhoods_analysis_boundaries
    c_battalion := p.1.battalion
    c_station_area := p.1.station_area
    c_supervisor_district := p.1.supervisor_district
    c_fire_prevention_district := p.1.fire_prevention_district
    c_box := p.1.box
    c_location_point := p.1.location
    i_address := p.2.bind fun i => i.address
    i_city := p.2.bind fun i => i.city
    i_zipcode := p.2.bind fun i => i.zipcode
    i_neighborhood := p.2.bind fun i => i.neighborhood_district
    i_battalion := p.2.bind fun i => i.battalion
    i_station_area := p.2.bind fun i => i.station_area
    i_supervisor_district := p.2.bind fun i => i.supervisor_district
    i_box := p.2.bind fun i => i.box
    i_location_point := p.2.bind fun i => i.location }

/-- The normalized location tuple. -/
structure LocTuple where
  address : Option String
  city : Option String
  zipcode : Option Int
  neighborhood : Option String
  battalion : Option String
  station_area : Option String
  supervisor_district : Option Int
  fire_prevention_district : Option String
  box : Option String
  location_point : Option String
deriving DecidableEq

/-- Transcription of the `keys` CTE of `build_dim_location`
(src/etl/tasks/gold.py, lines 131-146).  `c_box`/`i_box` are silver
`VARCHAR` columns, so the source's `CAST(_ AS VARCHAR)` is the
identity. -/
def dimLocNormalize (f : LocSourceFields) : LocTuple :=
  { address := nullifTrim (optCoalesce f.c_address f.i_address)
    city := nullifTrim (optCoalesce f.c_city f.i_city)
    zipcode := optCoalesce f.c_zipcode f.i_zipcode
    neighborhood := nullifTrim (optCoalesce f.c_neighborhood f.i_neighborhood)
    battalion := nullifTrim (optCoalesce f.c_battalion f.i_battalion)
    station_area := nullifTrim (optCoalesce f.c_station_area f.i_station_area)
    supervisor_district := optCoalesce f.c_supervisor_district f.i_supervisor_district
    fire_prevention_district := nullifTrim f.c_fire_prevention_district
    box := nullifTrim (optCoalesce f.c_box f.i_box)
    location_point := nullifTrim (optCoalesce f.c_location_point f.i_location_point) }

/-- Transcription of the `loc_keys` CTE of `build_fact_incident`
(src/etl/tasks/gold.py, lines 254-268), kept as its own definition so
that C2 genuinely compares the two in-source copies. -/
def factLocNormalize (f : LocSourceFields) : LocTuple :=
  { address := nullifTrim (optCoalesce f.c_address f.i_address)
    city := nullifTrim (optCoalesce f.c_city f.i_city)
    zipcode := optCoalesce f.c_zipcode f.i_zipcode
    neighborhood := nullifTrim (optCoalesce f.c_neighborhood f.i_neighborhood)
    battalion := nullifTrim (optCoalesce f.c_battalion f.i_battalion)
    station_area := nullifTrim (optCoalesce f.c_station_area f.i_station_area)
    supervisor_district := optCoalesce f.c_supervisor_district f.i_supervisor_district
    fire_prevention_district := nullifTrim f.c_fire_prevention_district
    box := nullifTrim (optCoalesce f.c_box f.i_box)
    location_point := nullifTrim (optCoalesce f.c_location_point f.i_location_point) }

/-- The pipe-concatenated md5 input of the `keyed` CTE of
`build_dim_location` (src/etl/tasks/gold.py, lines 148-165). -/
def dimLocKeyInput (t : LocTuple) : String :=
  coalEmpty t.address ++ ("|") ++
  coalEmpty t.city ++ ("|") ++
  coalEmpty (intToVarchar t.zipcode) ++ ("|") ++
  coalEmpty t.neighborhood ++ ("|") ++
  coalEmpty t.battalion ++ ("|") ++
  coalEmpty t.station_area ++ ("|") ++
  coalEmpty (intToVarchar t.supervisor_district) ++ ("|") ++
  coalEmpty t.fire_prevention_district ++ ("|") ++
  coalEmpty t.box ++ ("|") ++
  coalEmpty t.location_point

/-- The pipe-concatenated md5 input of the `keyed` CTE of
`build_fact_incident` (src/etl/tasks/gold.py, lines 270-286), again a
separate transcription of the duplicated SQL. -/
def factLocKeyInput (t : LocTuple) : String :=
  coalEmpty t.address ++ ("|") ++
  coalEmpty t.city ++ ("|") ++
  coalEmpty (intToVarchar t.zipcode) ++ ("|") ++
  coalEmpty t.neighborhood ++ ("|") ++
  coalEmpty t.battalion ++ ("|") ++
  coalEmpty t.station_area ++ ("|") ++
  coalEmpty (intToVarchar t.supervisor_district) ++ ("|") ++
  coalEmpty t.fire_prevention_district ++ ("|") ++
  coalEmpty t.box ++ ("|") ++
  coalEmpty t.location_point

/-! ## Gold dimensions -/

/-- Insertion sort by a boolean `le`; models the `ORDER BY` that fixes
`row_number()` surrogate-key assignment (only membership matters to the
claims). -/
def insertLeSorted {α : Type} (le : α → α → Bool) (x : α) : List α → List α
  | [] => [x]
  | y :: tl => if le x y then x :: y :: tl else y :: insertLeSorted le x tl

def sortByLe {α : Type} (le : α → α → Bool) (l : List α) : List α :=
  l.foldr (insertLeSorted le) []

/-- `CAST(strftime(d, '%Y%m%d') AS BIGINT)`. -/
def encodeDateYYYYMMDD (d : SqlDate) : Int :=
  ((d.y * 10000 + d.mo * 100 + d.d : Nat) : Int)

/-- `EXTRACT(dow FROM d)` with 0 = Sunday (1970-01-01 was a Thursday,
day number 719528 in the proleptic count used here). -/
def weekdayOf (d : SqlDate) : Nat := (dayNumber d + 6) % 7

/-- Row of `gold.dim_date` (src/etl/tasks/gold.py, lines 14-39); the
`week_of_year` column is not modelled (no claim mentions it). -/
structure DimDateRow where
  date_id : Int
  date : SqlDate
  year : Nat
  month : Nat
  day : Nat
  weekday : Nat
  is_weekend : Bool
deriving DecidableEq

/-- Embedding of `build_dim_date` (src/etl/tasks/gold.py, lines 4-42):
distinct non-null dates of either cleaned table, ordered, with the
YYYYMMDD surrogate key. -/
def buildDimDate (calls : List CallsCleanRow) (incidents : List IncidentsCleanRow) :
    List DimDateRow :=
  let all_dates :=
    (calls.filterMap (fun c => c.call_date) ++
      incidents.filterMap (fun i => i.incident_date)).dedup
  (sortByLe (fun a b => decide (encodeDateYYYYMMDD a ≤ encodeDateYYYYMMDD b)) all_dates).map
    fun d =>
      { date_id := encodeDateYYYYMMDD d
        date := d
        year := d.y
        month := d.mo
        day := d.d
        weekday := weekdayOf d
        is_weekend := decide (weekdayOf d = 0) || decide (weekdayOf d = 6) }

/-- The normalized (call_type, call_type_group, final_priority,
primary_situation) tuple of `build_dim_incident_type`. -/
structure IncidentTypeTuple where
  call_type : Option String
  call_type_group : Option String
  final_priority : Option Int
  primary_situation : Option String
deriving DecidableEq

structure DimIncidentTypeRow where
  incident_type_id : Nat
  call_type : Option String
  call_type_group : Option String
  primary_situation : Option String
  final_priority : Option Int
deriving DecidableEq

/-- The `WHERE call_type IS NOT NULL OR call_type_group IS NOT NULL OR
final_priority IS NOT NULL OR primary_situation IS NOT NULL` filter of
the `cleaned` CTE — evaluated on the raw base values, before the
`NULLIF(TRIM(...))` normalization. -/
def rawTypeAnyNonNull (p : CallsCleanRow × Option IncidentsCleanRow) : Bool :=
  decide (p.1.call_type ≠ none) || decide (p.1.call_type_group ≠ none) ||
  decide (p.1.final_priority ≠ none) ||
  decide ((p.2.bind fun i => i.primary_situation) ≠ none)

def normalizeTypeTuple (p : CallsCleanRow × Option IncidentsCleanRow) :
    IncidentTypeTuple :=
  { call_type := nullifTrim p.1.call_type
    call_type_group := nullifTrim p.1.call_type_group
    final_priority := p.1.final_priority
    primary_situation := nullifTrim (p.2.bind fun i => i.primary_situation) }

def optStrLtNL (a b : Option String) : Bool :=
  match a, b with
  | some x, some y => strLtB x y
  | some _, none => true
  | none, _ => false

def optIntLtNL (a b : Option Int) : Bool :=
  match a, b with
  | some x, some y => decide (x < y)
  | some _, none => true
  | none, _ => false

/-- `ORDER BY call_type, call_type_group, primary_situation,
final_priority` (ascending, NULLS LAST) as a strict lexicographic
comparison. -/
def typeTupleLtB (a b : IncidentTypeTuple) : Bool :=
  optStrLtNL a.call_type b.call_type ||
    (decide (a.call_type = b.call_type) && (optStrLtNL a.call_type_group b.call_type_group ||
      (decide (a.call_type_group = b.call_type_group) &&
        (optStrLtNL a.primary_situation b.primary_situation ||
          (decide (a.primary_situation = b.primary_situation) &&
            optIntLtNL a.final_priority b.final_priority)))))

/-- Embedding of `build_dim_incident_type` (src/etl/tasks/gold.py,
lines 45-92): left join restricted to calls with an incident number,
raw-value filter, normalization, DISTINCT, and `row_number()` ids over
the sorted tuples. -/
def buildDimIncidentType (calls : List CallsCleanRow)
    (incidents : List IncidentsCleanRow) : List DimIncidentTypeRow :=
  let base := (leftJoinCallsIncidents calls incidents).filter
    fun p => decide (p.1.incident_number ≠ none)
  let cleaned := ((base.filter rawTypeAnyNonNull).map normalizeTypeTuple).dedup
  (sortByLe (fun a b => !(typeTupleLtB b a)) cleaned).enum.map fun q =>
    { incident_type_id := q.1 + 1
      call_type := q.2.call_type
      call_type_group := q.2.call_type_group
      primary_situation := q.2.primary_situation
      final_priority := q.2.final_priority }

structure DimLocationRow where
  location_id : Nat
  location_key : String
  address : Option String
  city : Option String
  zipcode : Option Int
  neighborhood : Option String
  battalion : Option String
  station_area : Option String
  supervisor_district : Option Int
  fire_prevention_district : Option String
  box : Option String
  location_point : Option String
deriving DecidableEq

/-- Embedding of `build_dim_location` (src/etl/tasks/gold.py,
lines 95-175), parametric in the `md5` digest function (an engine
builtin): distinct normalized tuples, keyed by the digest of the
pipe-concatenated normalization, ids by `row_number() OVER (ORDER BY
location_key)`. -/
def buildDimLocation (md5 : String → String) (calls : List CallsCleanRow)
    (incidents : List IncidentsCleanRow) : List DimLocationRow :=
  let base := leftJoinCallsIncidents calls incidents
  let keys := (base.map fun p => dimLocNormalize (locSourceOf p)).dedup
  let keyed := keys.map fun t => (md5 (dimLocKeyInput t), t)
  (sortByLe (fun a b => !(strLtB b.1 a.1)) keyed).enum.map fun q =>
    { location_id := q.1 + 1
      location_key := q.2.1
      address := q.2.2.address
      city := q.2.2.city
      zipcode := q.2.2.zipcode
      neighborhood := q.2.2.neighborhood
      battalion := q.2.2.battalion
      station_area := q.2.2.station_area
      supervisor_district := q.2.2.supervisor_district
      fire_prevention_district := q.2.2.fire_prevention_district
      box := q.2.2.box
      location_point := q.2.2.location_point }

/-! ## Gold fact table -/

structure FactIncidentRow where
  incident_id : Nat
  incident_number : Option Int
  call_number : Option Int
  date_id : Option Int
  location_id : Option Int
  incident_type_id : Option Int
  received_ts : Option SqlTs
  dispatch_ts : Option SqlTs
  response_ts : Option SqlTs
  on_scene_ts : Option SqlTs
  close_ts : Option SqlTs
  response_time_sec : Option Int
  dispatch_delay_sec : Option Int
  travel_time_sec : Option Int
  incident_duration_sec : Option Int
  number_of_alarms : Option Int
  suppression_units : Option Int
  suppression_personnel : Option Int
  ems_units : Option Int
  ems_personnel : Option Int
  other_units : Option Int
  other_personnel : Option Int
  estimated_property_loss : Option Int
  estimated_contents_loss : Option Int
  final_priority : Option Int
deriving DecidableEq

/-- LEFT JOIN on a dimension: the matched keys, or a single NULL when
nothing matched. -/
def leftOuterIds (ms : List Int) : List (Option Int) :=
  match ms with
  | [] => [none]
  | _ => ms.map some

/-- `COALESCE(k.incident_date, k.call_date)` of the `d` CTE. -/
def factEventDate (p : CallsCleanRow × Option IncidentsCleanRow) : Option SqlDate :=
  optCoalesce (p.2.bind fun i => i.incident_date) p.1.call_date

/-- The dim_incident_type join condition of `build_fact_incident`
(src/etl/tasks/gold.py, lines 340-344): `IS NOT DISTINCT FROM` between
the dimension tuple and the normalized fact-side values. -/
def typeJoinMatches (dt : DimIncidentTypeRow)
    (p : CallsCleanRow × Option IncidentsCleanRow) : Bool :=
  decide (dt.call_type = nullifTrim p.1.call_type) &&
  decide (dt.call_type_group = nullifTrim p.1.call_type_group) &&
  decide (dt.primary_situation = nullifTrim (p.2.bind fun i => i.primary_situation)) &&
  decide (dt.final_priority = p.1.final_priority)

/-- Embedding of `build_fact_incident` (src/etl/tasks/gold.py,
lines 177-348), parametric in the `md5` builtin.  The dimensions are the
ones freshly rebuilt from the same silver state earlier in the gold
flow.  Base: calls left-joined to incidents, restricted to non-null
incident numbers and non-null event dates; the location key is
recomputed inline; the three dimension joins are left joins
(`incident_id` is `row_number() OVER ()`). -/
def buildFactIncident (md5 : String → String) (calls : List CallsCleanRow)
    (incidents : List IncidentsCleanRow) : List FactIncidentRow :=
  let dimDateT := buildDimDate calls incidents
  let dimLocT := buildDimLocation md5 calls incidents
  let dimTypeT := buildDimIncidentType calls incidents
  let base := (leftJoinCallsIncidents calls incidents).filter
    fun p => decide (p.1.incident_number ≠ none)
  let dRows := base.filter fun p => decide (factEventDate p ≠ none)
  let prelim := dRows.flatMap fun p =>
    let locKey := md5 (factLocKeyInput (factLocNormalize (locSourceOf p)))
    let dateIds := leftOuterIds
      ((dimDateT.filter fun dd => decide (some dd.date = factEventDate p)).map
        fun dd => dd.date_id)
    let locIds := leftOuterIds
      ((dimLocT.filter fun dl => decide (dl.location_key = locKey)).map
        fun dl => (dl.location_id : Int))
    let typeIds := leftOuterIds
      ((dimTypeT.filter fun dt => typeJoinMatches dt p).map
        fun dt => (dt.incident_type_id : Int))
    dateIds.flatMap fun dId =>
      locIds.flatMap fun lId =>
        typeIds.map fun tId => (p, dId, lId, tId)
  prelim.enum.map fun q =>
    let p := q.2.1
    let close_ts := p.2.bind fun i => i.close_ts
    { incident_id := q.1 + 1
      incident_number := p.1.incident_number
      call_number := p.1.call_number
      date_id := q.2.2.1
      location_id := q.2.2.2.1
      incident_type_id := q.2.2.2.2
      received_ts := p.1.received_ts
      dispatch_ts := p.1.dispatch_ts
      response_ts := p.1.response_ts
      on_scene_ts := p.1.on_scene_ts
      close_ts := close_ts
      response_time_sec := p.1.response_time_sec
      dispatch_delay_sec := p.1.dispatch_delay_sec
      travel_time_sec := p.1.travel_time_sec
      incident_duration_sec := elapsedSecGuard p.1.received_ts close_ts
      number_of_alarms := optCoalesce p.1.number_of_alarms (p.2.bind fun i => i.number_of_alarms)
      suppression_units := p.2.bind fun i => i.suppression_units
      suppression_personnel := p.2.bind fun i => i.suppression_personnel
      ems_units := p.2.bind fun i => i.ems_units
      ems_personnel := p.2.bind fun i => i.ems_personnel
      other_units := p.2.bind fun i => i.other_units
      other_personnel := p.2.bind fun i => i.other_personnel
      estimated_property_loss := p.2.bind fun i => i.estimated_property_loss
      estimated_contents_loss := p.2.bind fun i => i.estimated_contents_loss
      final_priority := p.1.final_priority }

/-! ## Gold quality gate (src/etl/test/gate_gold.py) -/

/-- A bronze calls row with every business column NULL. -/
def bronzeCallsRow0 : BronzeCallsRow :=
  { call_number := none, incident_number := none, unit_id := none
    call_type := none, call_type_group := none, original_priority := none
    priority := none, final_priority := none, als_unit := none
    call_date := none, watch_date := none, received_dt_tm := none
    entry_dt_tm := none, dispatch_dt_tm := none, response_dt_tm := none
    on_scene_dt_tm := none, transport_dt_tm := none, hospital_dt_tm := none
    available_dt_tm := none, address := none, city := none
    zipcode_of_incident := none, battalion := none, station_area := none
    box := none, supervisor_district := none
    neighborhoods_analysis_boundaries := none, location := none
    call_final_disposition := none, number_of_alarms := none, unit_type := none
    unit_sequence_in_call_dispatch := none, fire_prevention_district := none
    row_id := none, source_row_number := 0, source_sha256 := ("sha-a")
    source_file_path := ("lake/data.parquet")
    ingested_at_utc := ("2024-01-05 00:00:00") }

/-- Bronze row with ordinal 0 but the larger `row_id` text. -/
def c4BronzeRowA : BronzeCallsRow :=
  { bronzeCallsRow0 with
    call_number := some ("1")
    received_dt_tm := some ("2024-01-02 03:04:05")
    address := some ("ADDR0"), row_id := some ("B"), source_row_number := 0 }

/-- Bronze row with the larger ordinal 1 but the smaller `row_id` text;
same key, same event and ingestion timestamps as `c4BronzeRowA`. -/
def c4BronzeRowB : BronzeCallsRow :=
  { bronzeCallsRow0 with
    call_number := some ("1")
    received_dt_tm := some ("2024-01-02 03:04:05")
    address := some ("ADDR1"), row_id := some ("A"), source_row_number := 1 }

def c4BronzeEx : List BronzeCallsRow := [c4BronzeRowA, c4BronzeRowB]

/-- One-row bronze table for the C4 witness. -/
def c4BronzeW : List BronzeCallsRow :=
  [ { bronzeCallsRow0 with
      call_number := some ("7")
      received_dt_tm := some ("2024-01-02 03:04:05")
      row_id := some ("R1") } ]

/-- Registry with one previously succeeded content hash. -/
def c3RegistryW : List RegistryEntry :=
  [⟨("phase2_incremental"), ("aa11"), ("2024-01-01 00:00:00"), ("2024-01-02 00:00:00")⟩]

def c3FilesW : List DropFile :=
  [ ⟨("old.csv"), ("/drop/old.csv"),
      .ok ⟨("old.csv"), ("/drop/old.csv"), 10, ("2024-01-01 00:00:00"), ("aa11")⟩⟩,
    ⟨("new.csv"), ("/drop/new.csv"),
      .ok ⟨("new.csv"), ("/drop/new.csv"), 20, ("2024-01-03 00:00:00"), ("bb22")⟩⟩,
    ⟨("bad.csv"), ("/drop/bad.csv"), .error ("io error")⟩ ]

/-- Ledger state for the C7 witness: two PENDING files of one run. -/
def c7MetaW : MetaState :=
  { ingestion_log :=
      [ ⟨("run1"), ("phase2_incremental"), ("a.csv"), ("/drop/a.csv"), ("aa11"),
          ("PENDING"), none⟩,
        ⟨("run1"), ("phase2_incremental"), ("b.csv"), ("/drop/b.csv"), ("bb22"),
          ("PENDING"), none⟩ ]
    ingested_contents := [] }

def c7StateW : PipeState Nat :=
  { meta := c7MetaW, bronze_calls := [], bronze_incidents := [] }

/-- First job succeeds (two rows of a calls file). -/
def c7JobOkW : FileJob Nat :=
  { file_path := ("/drop/a.csv"), file_sha256 := ("aa11")
    src_cols := [("call_number")], readResult := .ok [10, 11], insertFails := false }

/-- Second job fails while reading its source. -/
def c7JobFailW : FileJob Nat :=
  { file_path := ("/drop/b.csv"), file_sha256 := ("bb22")
    src_cols := [("call_number")], readResult := .error ("parquet read error")
    insertFails := false }

/-- One source file of the bronze ingest fold used for C9. -/
structure SourceFile (α : Type) where
  rows : List α
  sha : String
  path : String
  now : String

/-- Replay a sequence of bronze ingests starting from an empty table
(any reachable bronze-table state of the incremental pipeline). -/
def runIngestSequence {α : Type} (files : List (SourceFile α)) : List (BronzeEntry α) :=
  files.foldl (fun t f => (ingestBronzeFile t f.rows f.sha f.path f.now).table) []

/-- Source files for the C9 witness. -/
def c9FilesW : List (SourceFile Nat) :=
  [⟨[5, 6], ("sha-a"), ("f.csv"), ("2024-01-01 00:00:00")⟩]

/-- The bronze-table uniqueness invariant of C9: the technical pair
(content hash, row ordinal) never repeats. -/
def distinctBronzeKeys {α : Type} (t : List (BronzeEntry α)) : Prop :=
  t.Pairwise fun a b =>
    ¬ (a.source_sha256 = b.source_sha256 ∧ a.source_row_number = b.source_row_number)

/-- Null-or-nonnegative, the C6 shape of every derived elapsed-time
measure. -/
def isNullOrNonneg (v : Option Int) : Prop :=
  v = none ∨ ∃ x, v = some x ∧ 0 ≤ x

/-- Classification of one scanned file by the registry alone: a
successfully fingerprinted file whose content hash is already
registered for this pipeline (the class the detector must log
SKIPPED). -/
def c3SkippedClass (registry : List RegistryEntry) (pipeline_name : String)
    (f : DropFile) : Bool :=
  match f.fingerprintResult with
  | .ok fp => isAlreadySuccessfullyIngested registry pipeline_name fp.sha256
  | .error _ => false

/-- A successfully fingerprinted file whose content hash is not yet
registered (the class the detector must log PENDING). -/
def c3PendingClass (registry : List RegistryEntry) (pipeline_name : String)
    (f : DropFile) : Bool :=
  match f.fingerprintResult with
  | .ok fp => !(isAlreadySuccessfullyIngested registry pipeline_name fp.sha256)
  | .error _ => false

/-! # Helper lemmas -/

theorem mem_leftJoin (calls : List CallsCleanRow) (incidents : List IncidentsCleanRow)
    (p : CallsCleanRow × Option IncidentsCleanRow)
    (hp : p ∈ leftJoinCallsIncidents calls incidents) :
    p.1 ∈ calls ∧ ∀ i, p.2 = some i → i ∈ incidents := by
  rcases List.mem_flatMap.1 hp with ⟨c, hc, hmem⟩
  revert hmem
  cases hms : incidents.filter fun i => optEqNotNull i.incident_number c.incident_number with
  | nil =>
    intro hmem
    simp only [List.mem_singleton] at hmem
    subst hmem
    exact ⟨hc, by intro i h; cases h⟩
  | cons i0 ms =>
    intro hmem
    rcases List.mem_map.1 hmem with ⟨i, hi, hpi⟩
    subst hpi
    refine ⟨hc, ?_⟩
    intro i2 h
    cases h
    have : i ∈ incidents.filter fun i => optEqNotNull i.incident_number c.incident_number := by
      rw [hms]; exact hi
    exact (List.mem_filter.1 this).1

theorem enumFrom_pairwise_fst_lt {α : Type} :
    ∀ (l : List α) (k : Nat), (List.enumFrom k l).Pairwise fun a b => a.1 < b.1 := by
  intro l
  induction l with
  | nil => intro k; simp
  | cons x tl ih =>
    intro k
    refine List.Pairwise.cons ?_ (ih (k + 1))
    intro b hb
    have hk : ∀ (m : Nat) (b : Nat × α), b ∈ List.enumFrom m tl → m ≤ b.1 := by
      clear hb b ih
      induction tl with
      | nil => intro m b hb; cases hb
      | cons y ys ih2 =>
        intro m b hb
        rcases List.mem_cons.1 hb with h | h
        · subst h; exact Nat.le_refl _
        · exact Nat.le_trans (Nat.le_succ m) (ih2 (m + 1) b h)
    exact Nat.lt_of_succ_le (hk (k + 1) b hb)

theorem enum_pairwise_fst_lt {α : Type} (l : List α) :
    l.enum.Pairwise fun a b => a.1 < b.1 :=
  enumFrom_pairwise_fst_lt l 0

/-- A list map that fixes every element matched by the filter predicate
and preserves the predicate leaves the filter unchanged. -/
theorem filter_stable_map {β : Type} (p : β → Bool) (g : β → β)
    (hp : ∀ e, p (g e) = p e) (hfix : ∀ e, p e = true → g e = e) :
    ∀ l : List β, (l.map g).filter p = l.filter p := by
  intro l
  induction l with
  | nil => rfl
  | cons e tl ih =>
    simp only [List.map_cons, List.filter_cons]
    by_cases he : p e = true
    · rw [hp e, if_pos he, if_pos he, hfix e he, ih]
    · have : p e = false := Bool.eq_false_iff.2 he
      rw [hp e, if_neg he, if_neg he, ih]

/-- In a list with a transitive irreflexive strict order, some element
has nothing sorting before it. -/
theorem exists_min_entry {α : Type} (before : α → α → Bool)
    (htrans : ∀ a b c, before a b = true → before b c = true → before a c = true)
    (hirr : ∀ a, before a a = false) :
    ∀ l : List α, l ≠ [] → ∃ m ∈ l, ∀ q ∈ l, before q m = false := by
  intro l
  induction l with
  | nil => intro h; exact absurd rfl h
  | cons a tl ih =>
    intro _
    by_cases htl : tl = []
    · subst htl
      refine ⟨a, List.mem_cons_self a [], ?_⟩
      intro q hq
      rcases List.mem_cons.1 hq with h | h
      · rw [h]; exact hirr a
      · cases h
    · rcases ih htl with ⟨m, hm, hmin⟩
      by_cases hab : before a m = true
      · refine ⟨a, List.mem_cons_self a tl, ?_⟩
        intro q hq
        rcases List.mem_cons.1 hq with h | h
        · rw [h]; exact hirr a
        · cases hqa : before q a with
          | false => rfl
          | true =>
            have h2 := htrans q a m hqa hab
            rw [hmin q h] at h2
            cases h2
      · refine ⟨m, List.mem_cons_of_mem a hm, ?_⟩
        intro q hq
        rcases List.mem_cons.1 hq with h | h
        · rw [h]
          cases hqa : before a m with
          | false => rfl
          | true => exact absurd hqa hab
        · exact hmin q h

/-- With a transitive, irreflexive order that is total on the (nodup)
list's elements, exactly one element has nothing sorting before it. -/
theorem filter_min_length_one {α : Type} (before : α → α → Bool)
    (htrans : ∀ a b c, before a b = true → before b c = true → before a c = true)
    (hirr : ∀ a, before a a = false)
    (l : List α) (hne : l ≠ []) (hnodup : l.Nodup)
    (htot : ∀ a ∈ l, ∀ b ∈ l, a ≠ b → before a b = true ∨ before b a = true) :
    (l.filter fun p => l.all fun q => !(before q p)).length = 1 := by
  rcases exists_min_entry before htrans hirr l hne with ⟨m, hm, hmin⟩
  have hpred : ∀ p, (l.all fun q => !(before q p)) = true ↔ ∀ q ∈ l, before q p = false := by
    intro p
    rw [List.all_eq_true]
    constructor
    · intro h q hq
      simpa using h q hq
    · intro h q hq
      simpa using h q hq
  have hmem : m ∈ l.filter fun p => l.all fun q => !(before q p) := by
    rw [List.mem_filter]
    exact ⟨hm, (hpred m).2 hmin⟩
  have huniq : ∀ p ∈ l.filter (fun p => l.all fun q => !(before q p)), p = m := by
    intro p hp
    rcases List.mem_filter.1 hp with ⟨hpl, hpq⟩
    by_contra hne2
    rcases htot p hpl m hm hne2 with h | h
    · rw [hmin p hpl] at h; cases h
    · rw [(hpred p).1 hpq m hm] at h; cases h
  have hnd : (l.filter fun p => l.all fun q => !(before q p)).Nodup :=
    hnodup.filter _
  cases hS : l.filter fun p => l.all fun q => !(before q p) with
  | nil => rw [hS] at hmem; cases hmem
  | cons x xs =>
    cases hxs : xs with
    | nil => rfl
    | cons y ys =>
      exfalso
      rw [hS, hxs] at hnd huniq
      have hx : x = m := huniq x (by simp)
      have hy : y = m := huniq y (by simp)
      rw [List.nodup_cons] at hnd
      exact hnd.1 (by rw [hx, hy]; simp)

/-- The two copies of the location normalization are the same function
(shared helper; claim C2 is stated over joined silver rows below). -/
theorem locNormalize_copies_eq (f : LocSourceFields) :
    dimLocNormalize f = factLocNormalize f := rfl

/-- The two copies of the pipe-concatenated hash input are the same
function. -/
theorem locKeyInput_copies_eq (t : LocTuple) :
    dimLocKeyInput t = factLocKeyInput t := rfl

/-! # Claim theorems -/

/-- C2: for every calls_clean row and its (possibly absent) joined
incidents_clean row, the normalized location tuple and the
pipe-concatenated md5 input computed by `build_dim_location` coincide
with the ones recomputed inline by `build_fact_incident`, so the two
location-key computations are extensionally equal for any digest
function. -/
theorem C2_location_hash_dim_fact_identical :
    ∀ (c : CallsCleanRow) (oi : Option IncidentsCleanRow),
      dimLocNormalize (locSourceOf (c, oi)) = factLocNormalize (locSourceOf (c, oi)) ∧
      dimLocKeyInput (dimLocNormalize (locSourceOf (c, oi))) =
        factLocKeyInput (factLocNormalize (locSourceOf (c, oi))) ∧
      ∀ md5 : String → String,
        md5 (dimLocKeyInput (dimLocNormalize (locSourceOf (c, oi)))) =
          md5 (factLocKeyInput (factLocNormalize (locSourceOf (c, oi)))) :=
  fun c oi => ⟨rfl, rfl, fun _ => rfl⟩

/-- C1: ingesting the same source file into bronze twice changes nothing
on the second pass — the anti-join on (content hash, row ordinal)
filters out every staged row, the table is unchanged (hence the same
final row count), and the reported `inserted_now` of the second pass
is 0. -/
theorem C1_bronze_ingest_idempotent (α : Type) (target : List (BronzeEntry α))
    (rows : List α) (sha path now now2 : String) :
    (ingestBronzeFile (ingestBronzeFile target rows sha path now).table
        rows sha path now2).table
      = (ingestBronzeFile target rows sha path now).table ∧
    (ingestBronzeFile (ingestBronzeFile target rows sha path now).table
        rows sha path now2).inserted_now = 0 := by
  have hT1 : (ingestBronzeFile target rows sha path now).table
      = target ++ antiJoinInsert target (stageSourceRows rows sha path now) := rfl
  have hkey : ∀ p ∈ rows.enum,
      bronzeHasKey (ingestBronzeFile target rows sha path now).table sha p.1 = true := by
    intro p hp
    by_cases h : bronzeHasKey target sha p.1 = true
    · rcases List.any_eq_true.1 h with ⟨b, hb, hbp⟩
      refine List.any_eq_true.2 ⟨b, ?_, hbp⟩
      rw [hT1]
      exact List.mem_append_left _ hb
    · have hfalse : bronzeHasKey target sha p.1 = false := Bool.eq_false_iff.2 h
      have hsmem : (⟨p.2, sha, p.1, path, now⟩ : BronzeEntry α)
          ∈ stageSourceRows rows sha path now :=
        List.mem_map.2 ⟨p, hp, rfl⟩
      have hins : (⟨p.2, sha, p.1, path, now⟩ : BronzeEntry α)
          ∈ antiJoinInsert target (stageSourceRows rows sha path now) := by
        rw [antiJoinInsert, List.mem_filter]
        exact ⟨hsmem, by simp [hfalse]⟩
      refine List.any_eq_true.2 ⟨⟨p.2, sha, p.1, path, now⟩, ?_, by simp⟩
      rw [hT1]
      exact List.mem_append_right _ hins
  have hnil : antiJoinInsert (ingestBronzeFile target rows sha path now).table
      (stageSourceRows rows sha path now2) = [] := by
    rw [antiJoinInsert, List.filter_eq_nil_iff]
    intro t ht
    rcases List.mem_map.1 ht with ⟨p, hp, hpt⟩
    rw [← hpt]
    simp only [Bool.not_eq_true, Bool.not_eq_false']
    exact hkey p hp
  constructor
  · show (ingestBronzeFile target rows sha path now).table
        ++ antiJoinInsert (ingestBronzeFile target rows sha path now).table
            (stageSourceRows rows sha path now2)
      = (ingestBronzeFile target rows sha path now).table
    rw [hnil, List.append_nil]
  · show countForSha ((ingestBronzeFile target rows sha path now).table
        ++ antiJoinInsert (ingestBronzeFile target rows sha path now).table
            (stageSourceRows rows sha path now2)) sha
      - countForSha (ingestBronzeFile target rows sha path now).table sha = 0
    rw [hnil, List.append_nil, Nat.sub_self]

/-- Row ordinals staged for one source file are pairwise distinct
(`row_number() OVER ()` is injective). -/
theorem stage_pairwise_ordinals {α : Type} (rows : List α) (sha path now : String) :
    (stageSourceRows rows sha path now).Pairwise
      fun a b => a.source_row_number ≠ b.source_row_number := by
  have h := enum_pairwise_fst_lt rows
  rw [stageSourceRows]
  exact h.map _ fun a b hab => by simpa using Nat.ne_of_lt hab

/-- One anti-joined insert preserves the (hash, ordinal) uniqueness
invariant. -/
theorem ingest_preserves_distinct {α : Type} (table : List (BronzeEntry α))
    (rows : List α) (sha path now : String) (h : distinctBronzeKeys table) :
    distinctBronzeKeys (ingestBronzeFile table rows sha path now).table := by
  have htab : (ingestBronzeFile table rows sha path now).table
      = table ++ antiJoinInsert table (stageSourceRows rows sha path now) := rfl
  rw [htab, distinctBronzeKeys, List.pairwise_append]
  refine ⟨h, ?_, ?_⟩
  · have hs := stage_pairwise_ordinals rows sha path now
    have hsub : (antiJoinInsert table (stageSourceRows rows sha path now)).Sublist
        (stageSourceRows rows sha path now) := List.filter_sublist _
    exact (hs.sublist hsub).imp fun hne hkey => hne hkey.2
  · intro a ha b hb
    rcases List.mem_filter.1 hb with ⟨hbs, hbp⟩
    intro hkey
    have hfalse : bronzeHasKey table b.source_sha256 b.source_row_number = false := by
      simpa using hbp
    have hwit : bronzeHasKey table b.source_sha256 b.source_row_number = true :=
      List.any_eq_true.2 ⟨a, ha, by simp [hkey.1, hkey.2]⟩
    rw [hfalse] at hwit
    cases hwit

theorem runIngest_distinct_aux {α : Type} :
    ∀ (files : List (SourceFile α)) (t : List (BronzeEntry α)),
      distinctBronzeKeys t →
      distinctBronzeKeys
        (files.foldl (fun t f => (ingestBronzeFile t f.rows f.sha f.path f.now).table) t) := by
  intro files
  induction files with
  | nil => intro t h; exact h
  | cons f fs ih =>
    intro t h
    exact ih _ (ingest_preserves_distinct t f.rows f.sha f.path f.now h)

/-- C9: in every bronze-table state reachable by a sequence of
incremental ingests from an empty table, the pair (_source_sha256,
_source_row_number) is unique across rows; each single anti-joined
insert preserves that invariant, and the ordinals staged within one
source file are pairwise distinct. -/
theorem C9_bronze_key_uniqueness_invariant (α : Type) :
    (∀ files : List (SourceFile α), distinctBronzeKeys (runIngestSequence files)) ∧
    (∀ (table : List (BronzeEntry α)) (rows : List α) (sha path now : String),
      distinctBronzeKeys table →
      distinctBronzeKeys (ingestBronzeFile table rows sha path now).table) ∧
    (∀ (rows : List α) (sha path now : String),
      (stageSourceRows rows sha path now).Pairwise
        fun a b => a.source_row_number ≠ b.source_row_number) := by
  refine ⟨?_, ?_, ?_⟩
  · intro files
    exact runIngest_distinct_aux files [] (by simp [distinctBronzeKeys])
  · intro table rows sha path now h
    exact ingest_preserves_distinct table rows sha path now h
  · intro rows sha path now
    exact stage_pairwise_ordinals rows sha path now

/-- Witness for C9 at a concrete table and file. -/
theorem C9_bronze_key_uniqueness_invariant_witness :
    distinctBronzeKeys ([] : List (BronzeEntry Nat)) ∧
    distinctBronzeKeys
      (ingestBronzeFile ([] : List (BronzeEntry Nat)) [5, 6] ("sha-a") ("f.csv")
        ("2024-01-01 00:00:00")).table :=
  ⟨by simp [distinctBronzeKeys],
    (C9_bronze_key_uniqueness_invariant Nat).2.1 [] [5, 6] ("sha-a") ("f.csv")
      ("2024-01-01 00:00:00") (by simp [distinctBronzeKeys])⟩

/-- The guarded elapsed-time computation is NULL unless both endpoints
parsed and their difference is non-negative, in which case it is that
difference. -/
theorem elapsedSecGuard_shape (a b : Option SqlTs) :
    elapsedSecGuard a b = none ∨ ∃ x y d, a = some x ∧ b = some y ∧
      elapsedSecGuard a b = some d ∧ d = datediffSec x y ∧ 0 ≤ d := by
  cases a with
  | none => left; rfl
  | some x =>
    cases b with
    | none => left; rfl
    | some y =>
      by_cases h : 0 ≤ datediffSec x y
      · right
        exact ⟨x, y, datediffSec x y, rfl, rfl, by simp [elapsedSecGuard, h], rfl, h⟩
      · left
        simp [elapsedSecGuard, h]

theorem elapsedSecGuard_nullOrNonneg (a b : Option SqlTs) :
    isNullOrNonneg (elapsedSecGuard a b) := by
  rcases elapsedSecGuard_shape a b with h | ⟨x, y, d, _, _, hd, _, hnn⟩
  · exact Or.inl h
  · exact Or.inr ⟨d, hd, hnn⟩

/-- Every calls_clean row is the cleaned form of some bronze row. -/
theorem mem_cleanSilver_imp (bronze : List BronzeCallsRow) (r : CallsCleanRow)
    (hr : r ∈ cleanSilverCallsPhase2 bronze) : ∃ b ∈ bronze, r = mkCallsCleanRow b := by
  rw [cleanSilverCallsPhase2, qualifyCallsDedup] at hr
  rcases List.mem_map.1 hr with ⟨p, hp, hpr⟩
  have hpE : p ∈ (bronze.map mkCallsCleanRow).enum := (List.mem_filter.1 hp).1
  have hsnd : p.2 ∈ bronze.map mkCallsCleanRow := by
    rw [← List.enum_map_snd (bronze.map mkCallsCleanRow)]
    exact List.mem_map_of_mem Prod.snd hpE
  rcases List.mem_map.1 hsnd with ⟨b, hb, hbr⟩
  exact ⟨b, hb, by rw [← hpr, ← hbr]⟩

/-- Decomposition of a fact row: its source pair in the joined silver
tables, the three dimension lookups it was built from, and how each
output column is filled. -/
theorem mem_buildFact_decomp (md5 : String → String) (calls : List CallsCleanRow)
    (incidents : List IncidentsCleanRow) (f : FactIncidentRow)
    (hf : f ∈ buildFactIncident md5 calls incidents) :
    ∃ (p : CallsCleanRow × Option IncidentsCleanRow) (dId lId tId : Option Int),
      p ∈ leftJoinCallsIncidents calls incidents ∧
      p.1.incident_number ≠ none ∧
      factEventDate p ≠ none ∧
      dId ∈ leftOuterIds
        (((buildDimDate calls incidents).filter
          fun dd => decide (some dd.date = factEventDate p)).map fun dd => dd.date_id) ∧
      lId ∈ leftOuterIds
        (((buildDimLocation md5 calls incidents).filter
          fun dl => decide (dl.location_key =
            md5 (factLocKeyInput (factLocNormalize (locSourceOf p))))).map
          fun dl => (dl.location_id : Int)) ∧
      tId ∈ leftOuterIds
        (((buildDimIncidentType calls incidents).filter
          fun dt => typeJoinMatches dt p).map fun dt => (dt.incident_type_id : Int)) ∧
      f.date_id = dId ∧ f.location_id = lId ∧ f.incident_type_id = tId ∧
      f.response_time_sec = p.1.response_time_sec ∧
      f.dispatch_delay_sec = p.1.dispatch_delay_sec ∧
      f.travel_time_sec = p.1.travel_time_sec ∧
      f.incident_duration_sec =
        elapsedSecGuard p.1.received_ts (p.2.bind fun i => i.close_ts) := by
  simp only [buildFactIncident] at hf
  rcases List.mem_map.1 hf with ⟨q, hq, hqf⟩
  have hq2 := List.mem_map_of_mem Prod.snd hq
  rw [List.enum_map_snd] at hq2
  rcases List.mem_flatMap.1 hq2 with ⟨p, hp, hx⟩
  rcases List.mem_flatMap.1 hx with ⟨dId, hdId, hx2⟩
  rcases List.mem_flatMap.1 hx2 with ⟨lId, hlId, hx3⟩
  rcases List.mem_map.1 hx3 with ⟨tId, htId, hx4⟩
  rcases List.mem_filter.1 hp with ⟨hp2, hpd⟩
  rcases List.mem_filter.1 hp2 with ⟨hpj, hpi⟩
  refine ⟨p, dId, lId, tId, hpj, by simpa using hpi, by simpa using hpd,
    hdId, hlId, htId, ?_, ?_, ?_, ?_, ?_, ?_, ?_⟩ <;>
    rw [← hqf, ← hx4]

/-- C6: every derived elapsed-time measure of `silver.calls_clean`
(response_time_sec, dispatch_delay_sec, travel_time_sec) and of
`gold.fact_incident` (those three plus incident_duration_sec) is either
NULL or non-negative, and the guarded computation yields a value exactly
when both endpoint timestamps parsed and their difference is
non-negative. -/
theorem C6_elapsed_time_null_or_nonneg (bronze : List BronzeCallsRow) :
    (∀ r ∈ cleanSilverCallsPhase2 bronze,
      isNullOrNonneg r.response_time_sec ∧ isNullOrNonneg r.dispatch_delay_sec ∧
        isNullOrNonneg r.travel_time_sec) ∧
    (∀ (md5 : String → String) (incidents : List IncidentsCleanRow),
      ∀ f ∈ buildFactIncident md5 (cleanSilverCallsPhase2 bronze) incidents,
        isNullOrNonneg f.response_time_sec ∧ isNullOrNonneg f.dispatch_delay_sec ∧
          isNullOrNonneg f.travel_time_sec ∧ isNullOrNonneg f.incident_duration_sec) ∧
    (∀ a b : Option SqlTs,
      elapsedSecGuard a b = none ∨ ∃ x y d, a = some x ∧ b = some y ∧
        elapsedSecGuard a b = some d ∧ d = datediffSec x y ∧ 0 ≤ d) := by
  have hsilver : ∀ r ∈ cleanSilverCallsPhase2 bronze,
      isNullOrNonneg r.response_time_sec ∧ isNullOrNonneg r.dispatch_delay_sec ∧
        isNullOrNonneg r.travel_time_sec := by
    intro r hr
    rcases mem_cleanSilver_imp bronze r hr with ⟨b, _, hb⟩
    rw [hb]
    exact ⟨elapsedSecGuard_nullOrNonneg _ _, elapsedSecGuard_nullOrNonneg _ _,
      elapsedSecGuard_nullOrNonneg _ _⟩
  refine ⟨hsilver, ?_, fun a b => elapsedSecGuard_shape a b⟩
  intro md5 incidents f hf
  rcases mem_buildFact_decomp md5 (cleanSilverCallsPhase2 bronze) incidents f hf with
    ⟨p, dId, lId, tId, hpj, _, _, _, _, _, _, _, _, hresp, hdisp, htrav, hdur⟩
  have hcalls : p.1 ∈ cleanSilverCallsPhase2 bronze :=
    (mem_leftJoin (cleanSilverCallsPhase2 bronze) incidents p hpj).1
  rcases hsilver p.1 hcalls with ⟨h1, h2, h3⟩
  rw [hresp, hdisp, htrav, hdur]
  exact ⟨h1, h2, h3, elapsedSecGuard_nullOrNonneg _ _⟩

/-- Unfolding of the detector's scan fold: the log gains one row per
file in order, and each counter ends up as the count of files logged
with the matching status. -/
theorem detect_fold_spec (registry : List RegistryEntry) (run_id pipeline_name : String) :
    ∀ (files : List DropFile) (acc : DetectSummary),
      files.foldl
        (fun acc f =>
          let st := detectStatusFor registry pipeline_name f
          let entry : LogEntry :=
            ⟨run_id, pipeline_name, f.file_name, f.file_path, detectShaFor f, st.1, st.2⟩
          { logs := acc.logs ++ [entry]
            pending := acc.pending + (if st.1 = ("PENDING") then 1 else 0)
            skipped := acc.skipped + (if st.1 = ("SKIPPED") then 1 else 0)
            failed := acc.failed + (if st.1 = ("FAILED") then 1 else 0) }) acc
      = { logs := acc.logs ++ files.map fun f =>
            ⟨run_id, pipeline_name, f.file_name, f.file_path, detectShaFor f,
              (detectStatusFor registry pipeline_name f).1,
              (detectStatusFor registry pipeline_name f).2⟩
          pending := acc.pending + (files.filter fun f =>
            decide ((detectStatusFor registry pipeline_name f).1 = ("PENDING"))).length
          skipped := acc.skipped + (files.filter fun f =>
            decide ((detectStatusFor registry pipeline_name f).1 = ("SKIPPED"))).length
          failed := acc.failed + (files.filter fun f =>
            decide ((detectStatusFor registry pipeline_name f).1 = ("FAILED"))).length } := by
  intro files
  induction files with
  | nil => intro acc; simp
  | cons f fs ih =>
    intro acc
    rw [List.foldl_cons, ih]
    simp only [List.map_cons, List.filter_cons, DetectSummary.mk.injEq]
    refine ⟨?_, ?_, ?_, ?_⟩
    · simp [List.append_assoc]
    · by_cases h : (detectStatusFor registry pipeline_name f).1 = ("PENDING") <;>
        simp [h] <;> omega
    · by_cases h : (detectStatusFor registry pipeline_name f).1 = ("SKIPPED") <;>
        simp [h] <;> omega
    · by_cases h : (detectStatusFor registry pipeline_name f).1 = ("FAILED") <;>
        simp [h] <;> omega

/-- C3: for every successfully fingerprinted file of a scan, the
detector logs SKIPPED exactly when the content hash is already in the
registry for this pipeline and PENDING otherwise (hex digests are never
empty, the hypothesis); the run's log carries one row per file with
that status, and the returned pending/skipped counts equal the sizes of
the two classes. -/
theorem C3_detector_classification (registry : List RegistryEntry)
    (run_id pipeline_name : String) (files : List DropFile)
    (hsha : ∀ f ∈ files, ∀ fp, f.fingerprintResult = .ok fp → fp.sha256 ≠ ("")) :
    (∀ f ∈ files, ∀ fp, f.fingerprintResult = .ok fp →
      (((detectStatusFor registry pipeline_name f).1 = ("SKIPPED")) ↔
        isAlreadySuccessfullyIngested registry pipeline_name fp.sha256 = true) ∧
      (((detectStatusFor registry pipeline_name f).1 = ("PENDING")) ↔
        isAlreadySuccessfullyIngested registry pipeline_name fp.sha256 = false)) ∧
    (detectAndLogClientDrop registry run_id pipeline_name files).logs
      = (files.map fun f =>
          ⟨run_id, pipeline_name, f.file_name, f.file_path, detectShaFor f,
            (detectStatusFor registry pipeline_name f).1,
            (detectStatusFor registry pipeline_name f).2⟩) ∧
    (detectAndLogClientDrop registry run_id pipeline_name files).pending
      = (files.filter (c3PendingClass registry pipeline_name)).length ∧
    (detectAndLogClientDrop registry run_id pipeline_name files).skipped
      = (files.filter (c3SkippedClass registry pipeline_name)).length := by
  have hstatus : ∀ f ∈ files, ∀ fp, f.fingerprintResult = .ok fp →
      (detectStatusFor registry pipeline_name f).1
        = (if isAlreadySuccessfullyIngested registry pipeline_name fp.sha256 = true
            then ("SKIPPED") else ("PENDING")) := by
    intro f hf fp hok
    have hne := hsha f hf fp hok
    have hred : detectStatusFor registry pipeline_name f
        = if fp.sha256 ≠ ("") ∧
              isAlreadySuccessfullyIngested registry pipeline_name fp.sha256 = true
          then (("SKIPPED"), some ("already_ingested"))
          else (("PENDING"), none) := by
      rw [detectStatusFor, hok]
    rw [hred]
    by_cases hreg : isAlreadySuccessfullyIngested registry pipeline_name fp.sha256 = true
    · rw [if_pos ⟨hne, hreg⟩, if_pos hreg]
    · rw [if_neg fun hc => hreg hc.2, if_neg hreg]
  have hiff : ∀ f ∈ files, ∀ fp, f.fingerprintResult = .ok fp →
      (((detectStatusFor registry pipeline_name f).1 = ("SKIPPED")) ↔
        isAlreadySuccessfullyIngested registry pipeline_name fp.sha256 = true) ∧
      (((detectStatusFor registry pipeline_name f).1 = ("PENDING")) ↔
        isAlreadySuccessfullyIngested registry pipeline_name fp.sha256 = false) := by
    intro f hf fp hok
    rw [hstatus f hf fp hok]
    by_cases hreg : isAlreadySuccessfullyIngested registry pipeline_name fp.sha256 = true <;>
      simp [hreg]
  have hsum : detectAndLogClientDrop registry run_id pipeline_name files
      = { logs := files.map fun f =>
            ⟨run_id, pipeline_name, f.file_name, f.file_path, detectShaFor f,
              (detectStatusFor registry pipeline_name f).1,
              (detectStatusFor registry pipeline_name f).2⟩
          pending := (files.filter fun f =>
            decide ((detectStatusFor registry pipeline_name f).1 = ("PENDING"))).length
          skipped := (files.filter fun f =>
            decide ((detectStatusFor registry pipeline_name f).1 = ("SKIPPED"))).length
          failed := (files.filter fun f =>
            decide ((detectStatusFor registry pipeline_name f).1 = ("FAILED"))).length } := by
    rw [detectAndLogClientDrop, detect_fold_spec registry run_id pipeline_name files]
    simp
  have hpendclass : ∀ f ∈ files,
      decide ((detectStatusFor registry pipeline_name f).1 = ("PENDING"))
        = c3PendingClass registry pipeline_name f := by
    intro f hf
    cases hok : f.fingerprintResult with
    | error e =>
      rw [c3PendingClass, hok, detectStatusFor, hok]
      simp
    | ok fp =>
      rw [c3PendingClass, hok, hstatus f hf fp hok]
      by_cases hreg : isAlreadySuccessfullyIngested registry pipeline_name fp.sha256 = true <;>
        simp [hreg]
  have hskipclass : ∀ f ∈ files,
      decide ((detectStatusFor registry pipeline_name f).1 = ("SKIPPED"))
        = c3SkippedClass registry pipeline_name f := by
    intro f hf
    cases hok : f.fingerprintResult with
    | error e =>
      rw [c3SkippedClass, hok, detectStatusFor, hok]
      simp
    | ok fp =>
      rw [c3SkippedClass, hok, hstatus f hf fp hok]
      by_cases hreg : isAlreadySuccessfullyIngested registry pipeline_name fp.sha256 = true <;>
        simp [hreg]
  refine ⟨hiff, ?_, ?_, ?_⟩
  · rw [hsum]
  · rw [hsum, List.filter_congr hpendclass]
  · rw [hsum, List.filter_congr hskipclass]

/-- Witness for C3 on a concrete registry and scan (one already
registered file, one new file, one fingerprint failure). -/
theorem C3_detector_classification_witness :
    (∀ f ∈ c3FilesW, ∀ fp, f.fingerprintResult = .ok fp → fp.sha256 ≠ ("")) ∧
    (detectAndLogClientDrop c3RegistryW ("run1") ("phase2_incremental") c3FilesW).pending
      = (c3FilesW.filter (c3PendingClass c3RegistryW ("phase2_incremental"))).length ∧
    (detectAndLogClientDrop c3RegistryW ("run1") ("phase2_incremental") c3FilesW).skipped
      = (c3FilesW.filter (c3SkippedClass c3RegistryW ("phase2_incremental"))).length := by
  have h : ∀ f ∈ c3FilesW, ∀ fp, f.fingerprintResult = .ok fp → fp.sha256 ≠ ("") := by
    intro f hf fp hok
    rw [c3FilesW] at hf
    rcases List.mem_cons.1 hf with rfl | hf2
    · cases hok; decide
    · rcases List.mem_cons.1 hf2 with rfl | hf3
      · cases hok; decide
      · rcases List.mem_cons.1 hf3 with rfl | hf4
        · cases hok
        · cases hf4
  have hmain := C3_detector_classification c3RegistryW ("run1") ("phase2_incremental")
    c3FilesW h
  exact ⟨h, hmain.2.2.1, hmain.2.2.2⟩

/-- C5 counterexample: on a merged export whose sanitized columns
contain both key columns and whose path clearly signals calls, the Lake
Writer's detector answers incidents (it never consults the path when
`incident_number` is present) while the Bronze Loader's detector breaks
the tie on the path substring and answers calls — so the two detection
rules are not the same. -/
theorem C5_counterexample :
    lakeDetectDatasetType [("call_number"), ("incident_number")]
        ("data/Client_drop/fire_calls.csv") = ("fire_incidents") ∧
    bronzeDetectDatasetType [("call_number"), ("incident_number")]
        ("data/Client_drop/fire_calls.csv") = ("calls") ∧
    lakeDatasetToBronzeName
        (lakeDetectDatasetType [("call_number"), ("incident_number")]
          ("data/Client_drop/fire_calls.csv"))
      ≠ bronzeDetectDatasetType [("call_number"), ("incident_number")]
          ("data/Client_drop/fire_calls.csv") :=
  ⟨by decide, by decide, by decide⟩

/-- C5 amended: the two dataset-type classifiers agree (modulo the
`fire_` naming of lake datasets) on every sanitized (all-lowercase)
column list that contains exactly one of the two key columns and no
underscore-free variant of the other, whatever either path is.  When
both key columns are present they genuinely differ: the Lake Writer
returns incidents unconditionally, the Bronze Loader consults the
path. -/
theorem C5_amended_detectors_agree (cols : List String) (lake_path bronze_path : String)
    (hlc : ∀ c ∈ cols, pyLowerString c = c)
    (hkeys :
      (cols.contains ("call_number") = true ∧ cols.contains ("incident_number") = false ∧
        cols.contains ("incidentnumber") = false) ∨
      (cols.contains ("incident_number") = true ∧ cols.contains ("call_number") = false ∧
        cols.contains ("callnumber") = false)) :
    lakeDatasetToBronzeName (lakeDetectDatasetType cols lake_path)
      = bronzeDetectDatasetType cols bronze_path := by
  have hmap : cols.map pyLowerString = cols := by
    have h1 : ∀ c ∈ cols, pyLowerString c = id c := fun c hc => hlc c hc
    calc cols.map pyLowerString = cols.map id := List.map_congr_left h1
    _ = cols := List.map_id cols
  rcases hkeys with ⟨h1, h2, h3⟩ | ⟨h1, h2, h3⟩ <;>
    simp at h1 h2 h3 <;>
    simp [lakeDetectDatasetType, bronzeDetectDatasetType, lakeDatasetToBronzeName,
      hmap, h1, h2, h3]

/-- Witness for C5 amended at a calls-only column list with two
unrelated paths. -/
theorem C5_amended_detectors_agree_witness :
    (∀ c ∈ [("call_number")], pyLowerString c = c) ∧
    lakeDatasetToBronzeName (lakeDetectDatasetType [("call_number")] ("drop/x.csv"))
      = bronzeDetectDatasetType [("call_number")]
          ("lake/fire_calls/ingest_date=2024-01-01/sha256=aa/data.parquet") := by
  have h1 : ∀ c ∈ [("call_number")], pyLowerString c = c := by decide
  exact ⟨h1, C5_amended_detectors_agree [("call_number")] ("drop/x.csv")
    ("lake/fire_calls/ingest_date=2024-01-01/sha256=aa/data.parquet") h1
    (Or.inl (by decide))⟩

/-- `_mark_done_and_upsert_success` for one content hash leaves the
ledger rows of any other content hash untouched. -/
theorem markDone_log_other_sha (m : MetaState) (run_id pipeline_name sha now : String)
    (run2 pipe2 sha2 : String) (hne : sha2 ≠ sha) :
    logRowsFor (markDoneAndUpsertSuccess m run_id pipeline_name sha now) run2 pipe2 sha2
      = logRowsFor m run2 pipe2 sha2 := by
  rw [markDoneAndUpsertSuccess, logRowsFor, logRowsFor]
  apply filter_stable_map
  · intro e
    by_cases hcond : e.run_id = run_id ∧ e.pipeline_name = pipeline_name ∧
        e.file_sha256 = sha
    · rw [if_pos hcond]
    · rw [if_neg hcond]
  · intro e hpe
    simp only [Bool.and_eq_true, decide_eq_true_eq] at hpe
    rw [if_neg]
    intro hcond
    exact hne (hpe.2 ▸ hcond.2.2)

/-- `_mark_done_and_upsert_success` for one content hash leaves the
registry rows of any other content hash untouched. -/
theorem markDone_registry_other_sha (m : MetaState)
    (run_id pipeline_name sha now : String) (pipe2 sha2 : String) (hne : sha2 ≠ sha) :
    registryRowsFor (markDoneAndUpsertSuccess m run_id pipeline_name sha now) pipe2 sha2
      = registryRowsFor m pipe2 sha2 := by
  rw [markDoneAndUpsertSuccess, registryRowsFor, registryRowsFor]
  by_cases hreg : isAlreadySuccessfullyIngested m.ingested_contents pipeline_name sha = true
  · rw [if_pos hreg]
    apply filter_stable_map
    · intro r
      by_cases hcond : r.pipeline_name = pipeline_name ∧ r.content_sha256 = sha
      · rw [if_pos hcond]
      · rw [if_neg hcond]
    · intro r hpr
      simp only [Bool.and_eq_true, decide_eq_true_eq] at hpr
      rw [if_neg]
      intro hcond
      exact hne (hpr.2 ▸ hcond.2)
  · rw [if_neg hreg, List.filter_append]
    have : Ne sha sha2 := fun h => hne h.symm
    simp [this]

/-- A successfully processed file ends with no exception and with
exactly the `_mark_done_and_upsert_success` effect on the meta state. -/
theorem processOk_meta {α : Type} (st : PipeState α) (run_id pipeline_name now : String)
    (j : FileJob α) (rows : List α) (hrows : j.readResult = .ok rows)
    (hins : j.insertFails = false) :
    (processPendingFile st run_id pipeline_name now j).2 = none ∧
    (processPendingFile st run_id pipeline_name now j).1.meta
      = markDoneAndUpsertSuccess st.meta run_id pipeline_name j.file_sha256 now := by
  rw [processPendingFile, hrows]
  constructor <;>
    by_cases hds : bronzeDetectDatasetType j.src_cols j.file_path = ("calls") <;>
    simp [hins, hds]

/-- The run over prefix-successful jobs followed by a failing job:
propagates the failure and leaves the failing file's ledger and
registry rows as they were. -/
theorem runBronze_fail_aux (α : Type) (run_id pipeline_name now : String)
    (jfail : FileJob α)
    (hfail : (∃ e, jfail.readResult = .error e) ∨ jfail.insertFails = true) :
    ∀ (pre : List (FileJob α)) (post : List (FileJob α)) (st : PipeState α),
      (∀ j ∈ pre, (∃ rows, j.readResult = .ok rows) ∧ j.insertFails = false) →
      (∀ j ∈ pre, j.file_sha256 ≠ jfail.file_sha256) →
      (runBronzeIncremental st run_id pipeline_name now (pre ++ jfail :: post)).2 ≠ none ∧
      logRowsFor (runBronzeIncremental st run_id pipeline_name now
          (pre ++ jfail :: post)).1.meta run_id pipeline_name jfail.file_sha256
        = logRowsFor st.meta run_id pipeline_name jfail.file_sha256 ∧
      registryRowsFor (runBronzeIncremental st run_id pipeline_name now
          (pre ++ jfail :: post)).1.meta pipeline_name jfail.file_sha256
        = registryRowsFor st.meta pipeline_name jfail.file_sha256 := by
  intro pre
  induction pre with
  | nil =>
    intro post st _ _
    have hbase : ∃ e2, processPendingFile st run_id pipeline_name now jfail
        = (st, some e2) := by
      rcases hfail with ⟨e, herr⟩ | hins
      · exact ⟨e, by rw [processPendingFile, herr]⟩
      · cases hr : jfail.readResult with
        | error e => exact ⟨e, by rw [processPendingFile, hr]⟩
        | ok rows =>
          exact ⟨("insert failed"), by rw [processPendingFile, hr, hins]; simp⟩
    rcases hbase with ⟨e2, hpe⟩
    rw [List.nil_append]
    have hrun : runBronzeIncremental st run_id pipeline_name now (jfail :: post)
        = (st, some e2) := by
      simp only [runBronzeIncremental, hpe]
    rw [hrun]
    exact ⟨by simp, rfl, rfl⟩
  | cons j pre2 ih =>
    intro post st hok hsha
    rcases hok j (List.mem_cons_self j pre2) with ⟨⟨rows, hrows⟩, hins⟩
    have hproc := processOk_meta st run_id pipeline_name now j rows hrows hins
    have hstep : runBronzeIncremental st run_id pipeline_name now
        ((j :: pre2) ++ jfail :: post)
        = runBronzeIncremental (processPendingFile st run_id pipeline_name now j).1
            run_id pipeline_name now (pre2 ++ jfail :: post) := by
      rw [List.cons_append]
      simp only [runBronzeIncremental, hproc.1]
    have hne : jfail.file_sha256 ≠ j.file_sha256 :=
      Ne.symm (hsha j (List.mem_cons_self j pre2))
    have hih := ih post (processPendingFile st run_id pipeline_name now j).1
      (fun j2 hj2 => hok j2 (List.mem_cons_of_mem j hj2))
      (fun j2 hj2 => hsha j2 (List.mem_cons_of_mem j hj2))
    rw [hstep]
    refine ⟨hih.1, ?_, ?_⟩
    · rw [hih.2.1, hproc.2,
        markDone_log_other_sha st.meta run_id pipeline_name j.file_sha256 now
          run_id pipeline_name jfail.file_sha256 hne]
    · rw [hih.2.2, hproc.2,
        markDone_registry_other_sha st.meta run_id pipeline_name j.file_sha256 now
          pipeline_name jfail.file_sha256 hne]

/-- C7: if an exception is raised while processing one PENDING file of
the bronze incremental run (reading/describing the source, or the
insert itself) after any number of successfully processed files with
other content hashes, the run fails (propagating, no retry), the
failing file's ledger rows are exactly as before the run — in
particular still PENDING if they were — and its (pipeline, content
hash) registry rows are neither created nor updated. -/
theorem C7_bronze_single_file_failure_atomicity (α : Type) (st : PipeState α)
    (run_id pipeline_name now : String) (pre : List (FileJob α)) (jfail : FileJob α)
    (post : List (FileJob α))
    (hok : ∀ j ∈ pre, (∃ rows, j.readResult = .ok rows) ∧ j.insertFails = false)
    (hfail : (∃ e, jfail.readResult = .error e) ∨ jfail.insertFails = true)
    (hsha : ∀ j ∈ pre, j.file_sha256 ≠ jfail.file_sha256) :
    (runBronzeIncremental st run_id pipeline_name now (pre ++ jfail :: post)).2 ≠ none ∧
    logRowsFor (runBronzeIncremental st run_id pipeline_name now
        (pre ++ jfail :: post)).1.meta run_id pipeline_name jfail.file_sha256
      = logRowsFor st.meta run_id pipeline_name jfail.file_sha256 ∧
    registryRowsFor (runBronzeIncremental st run_id pipeline_name now
        (pre ++ jfail :: post)).1.meta pipeline_name jfail.file_sha256
      = registryRowsFor st.meta pipeline_name jfail.file_sha256 ∧
    ((∀ e ∈ logRowsFor st.meta run_id pipeline_name jfail.file_sha256,
        e.status = ("PENDING")) →
      ∀ e ∈ logRowsFor (runBronzeIncremental st run_id pipeline_name now
          (pre ++ jfail :: post)).1.meta run_id pipeline_name jfail.file_sha256,
        e.status = ("PENDING")) := by
  have h := runBronze_fail_aux α run_id pipeline_name now jfail hfail pre post st hok hsha
  refine ⟨h.1, h.2.1, h.2.2, ?_⟩
  intro hpend e he
  rw [h.2.1] at he
  exact hpend e he

/-- Witness for C7: one successful file then one whose source read
fails; the failing file's ledger row stays PENDING and no registry
entry for its hash appears. -/
theorem C7_bronze_single_file_failure_atomicity_witness :
    ((∀ j ∈ [c7JobOkW], (∃ rows, j.readResult = .ok rows) ∧ j.insertFails = false) ∧
      ((∃ e, c7JobFailW.readResult = .error e) ∨ c7JobFailW.insertFails = true) ∧
      (∀ j ∈ [c7JobOkW], j.file_sha256 ≠ c7JobFailW.file_sha256)) ∧
    (runBronzeIncremental c7StateW ("run1") ("phase2_incremental")
        ("2024-01-06 00:00:00") ([c7JobOkW] ++ c7JobFailW :: [])).2 ≠ none ∧
    logRowsFor (runBronzeIncremental c7StateW ("run1") ("phase2_incremental")
        ("2024-01-06 00:00:00") ([c7JobOkW] ++ c7JobFailW :: [])).1.meta
        ("run1") ("phase2_incremental") c7JobFailW.file_sha256
      = logRowsFor c7StateW.meta ("run1") ("phase2_incremental")
          c7JobFailW.file_sha256 := by
  have h1 : ∀ j ∈ [c7JobOkW], (∃ rows, j.readResult = .ok rows) ∧ j.insertFails = false := by
    intro j hj
    rcases List.mem_singleton.1 hj with rfl
    exact ⟨⟨[10, 11], rfl⟩, rfl⟩
  have h2 : (∃ e, c7JobFailW.readResult = .error e) ∨ c7JobFailW.insertFails = true :=
    Or.inl ⟨("parquet read error"), rfl⟩
  have h3 : ∀ j ∈ [c7JobOkW], j.file_sha256 ≠ c7JobFailW.file_sha256 := by
    intro j hj
    rcases List.mem_singleton.1 hj with rfl
    decide
  have hmain := C7_bronze_single_file_failure_atomicity Nat c7StateW ("run1")
    ("phase2_incremental") ("2024-01-06 00:00:00") [c7JobOkW] c7JobFailW [] h1 h2 h3
  exact ⟨⟨h1, h2, h3⟩, hmain.1, hmain.2.1⟩

theorem mem_via_enum {α : Type} (l : List α) (x : α) (hx : x ∈ l) :
    ∃ q ∈ l.enum, q.2 = x := by
  rw [← List.enum_map_snd l] at hx
  exact List.mem_map.1 hx

theorem listCharLtB_irrefl : ∀ l : List Char, listCharLtB l l = false := by
  intro l
  induction l with
  | nil => rfl
  | cons c tl ih => simp [listCharLtB, charLtB, ih]

theorem listCharLtB_trans :
    ∀ a b c : List Char, listCharLtB a b = true → listCharLtB b c = true →
      listCharLtB a c = true := by
  intro a
  induction a with
  | nil =>
    intro b c hab hbc
    cases b with
    | nil => cases hab
    | cons bh bt =>
      cases c with
      | nil => cases hbc
      | cons ch ct => rfl
  | cons ah atl ih =>
    intro b c hab hbc
    cases b with
    | nil => cases hab
    | cons bh bt =>
      cases c with
      | nil => cases hbc
      | cons ch ct =>
        simp only [listCharLtB, charLtB, Bool.or_eq_true, Bool.and_eq_true,
          decide_eq_true_eq] at hab hbc ⊢
        rcases hab with h1 | ⟨he1, h1⟩ <;> rcases hbc with h2 | ⟨he2, h2⟩
        · exact Or.inl (lt_trans h1 h2)
        · exact Or.inl (by rw [← he2]; exact h1)
        · exact Or.inl (by rw [he1]; exact h2)
        · exact Or.inr ⟨he1.trans he2, ih bt ct h1 h2⟩

theorem listCharLtB_total :
    ∀ a b : List Char, a ≠ b → listCharLtB a b = true ∨ listCharLtB b a = true := by
  intro a
  induction a with
  | nil =>
    intro b hne
    cases b with
    | nil => exact absurd rfl hne
    | cons bh bt => exact Or.inl rfl
  | cons ah atl ih =>
    intro b hne
    cases b with
    | nil => exact Or.inr rfl
    | cons bh bt =>
      by_cases hh : ah = bh
      · have htl : atl ≠ bt := by
          intro h
          exact hne (by rw [hh, h])
        rcases ih bt htl with h | h
        · exact Or.inl (by simp [listCharLtB, hh, h])
        · exact Or.inr (by simp [listCharLtB, hh.symm, h])
      · have hnat : ah.toNat ≠ bh.toNat := by
          intro h
          exact hh (Char.eq_of_val_eq (UInt32.ext h))
        rcases Nat.lt_or_ge ah.toNat bh.toNat with h | h
        · exact Or.inl (by simp [listCharLtB, charLtB, h])
        · have hlt : bh.toNat < ah.toNat := Nat.lt_of_le_of_ne h (Ne.symm hnat)
          exact Or.inr (by simp [listCharLtB, charLtB, hlt])

theorem strLtB_irrefl (s : String) : strLtB s s = false := listCharLtB_irrefl s.data

theorem strLtB_trans (a b c : String) (hab : strLtB a b = true)
    (hbc : strLtB b c = true) : strLtB a c = true :=
  listCharLtB_trans a.data b.data c.data hab hbc

theorem strLtB_total (a b : String) (hne : a ≠ b) :
    strLtB a b = true ∨ strLtB b a = true :=
  listCharLtB_total a.data b.data fun h => hne (String.ext h)

theorem rowidDescBefore_irrefl (a : Option String) : rowidDescBefore a a = false := by
  cases a with
  | none => rfl
  | some x => simp [rowidDescBefore, strLtB_irrefl]

theorem rowidDescBefore_trans (a b c : Option String)
    (hab : rowidDescBefore a b = true) (hbc : rowidDescBefore b c = true) :
    rowidDescBefore a c = true := by
  cases a with
  | none => cases hab
  | some x =>
    cases b with
    | none => cases hbc
    | some y =>
      cases c with
      | none => rfl
      | some z =>
        exact strLtB_trans z y x hbc hab

theorem rowidDescBefore_total (a b : Option String) (hne : a ≠ b) :
    rowidDescBefore a b = true ∨ rowidDescBefore b a = true := by
  cases a with
  | none =>
    cases b with
    | none => exact absurd rfl hne
    | some y => exact Or.inr rfl
  | some x =>
    cases b with
    | none => exact Or.inl rfl
    | some y =>
      have hxy : y ≠ x := by
        intro h
        exact hne (by rw [h])
      rcases strLtB_total y x hxy with h | h
      · exact Or.inl h
      · exact Or.inr h

theorem callsEntryBefore_iff (a b : Nat × CallsCleanRow) :
    callsEntryBefore a b = true ↔
      coalTs1900 b.2.received_ts < coalTs1900 a.2.received_ts ∨
      (coalTs1900 a.2.received_ts = coalTs1900 b.2.received_ts ∧
        (coalTs1900 b.2.ingested_ts < coalTs1900 a.2.ingested_ts ∨
          (coalTs1900 a.2.ingested_ts = coalTs1900 b.2.ingested_ts ∧
            (rowidDescBefore a.2.rowid b.2.rowid = true ∨
              (a.2.rowid = b.2.rowid ∧ a.1 < b.1))))) := by
  rw [callsEntryBefore]
  simp only [Bool.or_eq_true, Bool.and_eq_true, decide_eq_true_eq]

theorem callsEntryBefore_irrefl (a : Nat × CallsCleanRow) :
    callsEntryBefore a a = false := by
  rw [callsEntryBefore]
  simp [rowidDescBefore_irrefl]

theorem callsEntryBefore_trans (a b c : Nat × CallsCleanRow)
    (hab : callsEntryBefore a b = true) (hbc : callsEntryBefore b c = true) :
    callsEntryBefore a c = true := by
  rw [callsEntryBefore_iff] at hab hbc ⊢
  rcases hab with h1 | ⟨e1, hab2⟩
  · rcases hbc with h2 | ⟨e2, hbc2⟩
    · exact Or.inl (by omega)
    · exact Or.inl (by omega)
  · rcases hbc with h2 | ⟨e2, hbc2⟩
    · exact Or.inl (by omega)
    · refine Or.inr ⟨by omega, ?_⟩
      rcases hab2 with h1 | ⟨f1, hab3⟩
      · rcases hbc2 with h2 | ⟨f2, hbc3⟩
        · exact Or.inl (by omega)
        · exact Or.inl (by omega)
      · rcases hbc2 with h2 | ⟨f2, hbc3⟩
        · exact Or.inl (by omega)
        · refine Or.inr ⟨by omega, ?_⟩
          rcases hab3 with h1 | ⟨g1, hab4⟩
          · rcases hbc3 with h2 | ⟨g2, hbc4⟩
            · exact Or.inl (rowidDescBefore_trans _ _ _ h1 h2)
            · exact Or.inl (by rw [← g2]; exact h1)
          · rcases hbc3 with h2 | ⟨g2, hbc4⟩
            · exact Or.inl (by rw [g1]; exact h2)
            · exact Or.inr ⟨g1.trans g2, Nat.lt_trans hab4 hbc4⟩

set_option maxRecDepth 4000 in
theorem callsEntryBefore_total (a b : Nat × CallsCleanRow) (hne : a.1 ≠ b.1) :
    callsEntryBefore a b = true ∨ callsEntryBefore b a = true := by
  rw [callsEntryBefore_iff, callsEntryBefore_iff]
  rcases lt_trichotomy (coalTs1900 a.2.received_ts) (coalTs1900 b.2.received_ts)
    with h | h | h
  · exact Or.inr (Or.inl h)
  · rcases lt_trichotomy (coalTs1900 a.2.ingested_ts) (coalTs1900 b.2.ingested_ts)
      with h2 | h2 | h2
    · exact Or.inr (Or.inr ⟨h.symm, Or.inl h2⟩)
    · by_cases hr : a.2.rowid = b.2.rowid
      · rcases Nat.lt_or_ge a.1 b.1 with h3 | h3
        · exact Or.inl (Or.inr ⟨h, Or.inr ⟨h2, Or.inr ⟨hr, h3⟩⟩⟩)
        · have h4 : b.1 < a.1 := Nat.lt_of_le_of_ne h3 (Ne.symm hne)
          exact Or.inr (Or.inr ⟨h.symm, Or.inr ⟨h2.symm, Or.inr ⟨hr.symm, h4⟩⟩⟩)
      · rcases rowidDescBefore_total a.2.rowid b.2.rowid hr with h3 | h3
        · exact Or.inl (Or.inr ⟨h, Or.inr ⟨h2, Or.inl h3⟩⟩)
        · exact Or.inr (Or.inr ⟨h.symm, Or.inr ⟨h2.symm, Or.inl h3⟩⟩)
    · exact Or.inl (Or.inr ⟨h, Or.inl h2⟩)
  · exact Or.inl (Or.inl h)

theorem bool_eq_of_iff {a b : Bool} (h : a = true ↔ b = true) : a = b := by
  cases a <;> cases b <;> simp_all

theorem nodup_enum {α : Type} (l : List α) : l.enum.Nodup :=
  (enum_pairwise_fst_lt l).imp fun hlt heq =>
    absurd (congrArg Prod.fst heq) (Nat.ne_of_lt hlt)

theorem enum_fst_ne {α : Type} (l : List α) :
    ∀ a ∈ l.enum, ∀ b ∈ l.enum, a ≠ b → a.1 ≠ b.1 := by
  have hp : l.enum.Pairwise fun a b => a.1 ≠ b.1 :=
    (enum_pairwise_fst_lt l).imp fun hlt => Nat.ne_of_lt hlt
  intro a ha b hb hne
  exact hp.forall (fun x y h => Ne.symm h) ha hb hne

/-- For every key value K present among the cleaned bronze rows,
`calls_clean` holds exactly one row with that key. -/
theorem cleanCalls_unique_per_key (bronze : List BronzeCallsRow) (K : Option Int)
    (hK : K ∈ (bronze.map mkCallsCleanRow).map fun r => r.call_number) :
    ((cleanSilverCallsPhase2 bronze).filter
      fun r => decide (r.call_number = K)).length = 1 := by
  have hout : cleanSilverCallsPhase2 bronze
      = ((bronze.map mkCallsCleanRow).enum.filter fun p =>
          (bronze.map mkCallsCleanRow).enum.all fun q =>
            !(decide (q.2.call_number = p.2.call_number) && callsEntryBefore q p)).map
        Prod.snd := rfl
  rw [hout, List.filter_map, List.length_map]
  rw [List.filter_filter]
  have hcong : ∀ e ∈ (bronze.map mkCallsCleanRow).enum,
      (((fun r => decide (r.call_number = K)) ∘ Prod.snd) e &&
        ((bronze.map mkCallsCleanRow).enum.all fun q =>
          !(decide (q.2.call_number = e.2.call_number) && callsEntryBefore q e)))
      = ((((bronze.map mkCallsCleanRow).enum.filter fun p =>
            decide (p.2.call_number = K)).all fun q => !(callsEntryBefore q e)) &&
          decide (e.2.call_number = K)) := by
    intro e heE
    by_cases hpe : e.2.call_number = K
    · have h1 : ((fun r => decide (r.call_number = K)) ∘ Prod.snd) e = true := by
        simp [hpe]
      have h2 : decide (e.2.call_number = K) = true := by simp [hpe]
      rw [h1, h2, Bool.true_and, Bool.and_true]
      apply bool_eq_of_iff
      simp only [List.all_eq_true, Bool.not_eq_true', List.mem_filter,
        Bool.and_eq_false_iff, decide_eq_true_eq, decide_eq_false_iff_not]
      constructor
      · intro h q hq
        rcases hq with ⟨hqE, hqK⟩
        rcases h q hqE with h3 | h3
        · exact absurd (hqK.trans hpe.symm) h3
        · exact h3
      · intro h q hqE
        by_cases hqK : q.2.call_number = e.2.call_number
        · exact Or.inr (h q ⟨hqE, hqK.trans hpe⟩)
        · exact Or.inl hqK
    · have h1 : ((fun r => decide (r.call_number = K)) ∘ Prod.snd) e = false := by
        simp [hpe]
      have h2 : decide (e.2.call_number = K) = false := by simp [hpe]
      rw [h1, h2, Bool.false_and, Bool.and_false]
  rw [List.filter_congr hcong, ← List.filter_filter]
  rcases List.mem_map.1 hK with ⟨r, hr, hrK⟩
  rcases mem_via_enum _ r hr with ⟨e0, he0, he02⟩
  have hmem : e0 ∈ (bronze.map mkCallsCleanRow).enum.filter fun p =>
      decide (p.2.call_number = K) :=
    List.mem_filter.2 ⟨he0, by simp [he02, hrK]⟩
  exact filter_min_length_one callsEntryBefore callsEntryBefore_trans
    callsEntryBefore_irrefl _ (List.ne_nil_of_mem hmem)
    ((nodup_enum _).filter _)
    (fun a ha b hb hne => callsEntryBefore_total a b
      (enum_fst_ne _ a (List.mem_of_mem_filter ha) b (List.mem_of_mem_filter hb) hne))

/-- Every surviving calls_clean row is the cleaned form of a bronze row
that nothing in its partition sorts before. -/
theorem cleanCalls_keeps_maximal (bronze : List BronzeCallsRow) :
    ∀ r ∈ cleanSilverCallsPhase2 bronze,
      ∃ e ∈ (bronze.map mkCallsCleanRow).enum, e.2 = r ∧
        ∀ q ∈ (bronze.map mkCallsCleanRow).enum,
          q.2.call_number = r.call_number → callsEntryBefore q e = false := by
  intro r hr
  rw [cleanSilverCallsPhase2, qualifyCallsDedup] at hr
  rcases List.mem_map.1 hr with ⟨e, he, her⟩
  rcases List.mem_filter.1 he with ⟨heE, hkeep⟩
  refine ⟨e, heE, her, ?_⟩
  intro q hq hkey
  rw [List.all_eq_true] at hkeep
  have h2 := hkeep q hq
  simp only [Bool.not_eq_true', Bool.and_eq_false_iff, decide_eq_false_iff_not] at h2
  rcases h2 with h3 | h3
  · exact absurd (by rw [hkey, ← her]) h3
  · exact h3

/-- C4: the spec's dedup tuple (event time, ingestion time, row ordinal)
does not match the code. On `c4BronzeEx` both rows share key 1 and both
timestamps; the spec's maximum is the row with ordinal 1 (address ADDR1),
but `clean_silver_phase2` orders the tie-break on the business `rowid`
column descending, keeping the ordinal-0 row whose rowid text is larger. -/
theorem C4_counterexample : ¬ c4ClaimAt c4BronzeEx := by
  unfold c4ClaimAt; decide

/-- C4 (amended): for every natural key present in bronze.calls,
calls_clean contains exactly one row with that key, and every surviving
row comes from a bronze row that no same-key bronze row precedes under
the code's order: received timestamp descending, then ingestion
timestamp descending, then the `rowid` column descending with nulls
last, then the row's position. -/
theorem C4_amended_silver_dedup (bronze : List BronzeCallsRow) (K : Option Int)
    (hK : K ∈ (bronze.map mkCallsCleanRow).map fun r => r.call_number) :
    ((cleanSilverCallsPhase2 bronze).filter
      fun r => decide (r.call_number = K)).length = 1 ∧
    ∀ r ∈ cleanSilverCallsPhase2 bronze,
      ∃ e ∈ (bronze.map mkCallsCleanRow).enum, e.2 = r ∧
        ∀ q ∈ (bronze.map mkCallsCleanRow).enum,
          q.2.call_number = r.call_number → callsEntryBefore q e = false :=
  ⟨cleanCalls_unique_per_key bronze K hK, cleanCalls_keeps_maximal bronze⟩

/-- Witness for C4 (amended): on the one-row bronze table `c4BronzeW`
the key `some 7` is present and calls_clean holds exactly one row with
that key. -/
theorem C4_amended_silver_dedup_witness :
    ((some (7 : Int)) ∈ ((c4BronzeW.map mkCallsCleanRow).map fun r =>
      r.call_number)) ∧
    ((cleanSilverCallsPhase2 c4BronzeW).filter
      fun r => decide (r.call_number = some (7 : Int))).length = 1 :=
  ⟨by decide, (C4_amended_silver_dedup c4BronzeW (some (7 : Int)) (by decide)).1⟩

/-! ### C10 helper lemmas: character-level facts about the sanitizer -/

theorem pyToLower_not_upper (c : Char) : pyIsUpper (pyToLower c) = false := by
  rw [pyToLower]
  by_cases h : pyIsUpper c = true
  · rw [if_pos h]
    rw [pyIsUpper, Bool.and_eq_true, decide_eq_true_eq, decide_eq_true_eq] at h
    have h1 : 65 ≤ c.toNat := h.1
    have h2 : c.toNat ≤ 90 := h.2
    set n := c.toNat with hn
    interval_cases n <;> decide
  · rw [if_neg h]
    exact (Bool.not_eq_true _).mp h

theorem pyToLower_eq_self {c : Char} (h : pyIsUpper c = false) :
    pyToLower c = c := by
  rw [pyToLower, if_neg]
  simp [h]

theorem eq_underscore_of_pyToLower (c : Char) (h : pyToLower c = '_') :
    c = '_' := by
  by_cases hu : pyIsUpper c = true
  · exfalso
    rw [pyToLower, if_pos hu] at h
    rw [pyIsUpper, Bool.and_eq_true, decide_eq_true_eq, decide_eq_true_eq] at hu
    have h1 : 65 ≤ c.toNat := hu.1
    have h2 : c.toNat ≤ 90 := hu.2
    revert h
    set n := c.toNat with hn
    interval_cases n <;> decide
  · rwa [pyToLower, if_neg (by simp_all)] at h

theorem pyToLower_good (c : Char)
    (h : pyIsSpace c = false ∧ c ≠ '-' ∧ c ≠ '.') :
    pyIsSpace (pyToLower c) = false ∧ pyToLower c ≠ '-' ∧ pyToLower c ≠ '.' := by
  by_cases hu : pyIsUpper c = true
  · rw [pyToLower, if_pos hu]
    rw [pyIsUpper, Bool.and_eq_true, decide_eq_true_eq, decide_eq_true_eq] at hu
    have h1 : 65 ≤ c.toNat := hu.1
    have h2 : c.toNat ≤ 90 := hu.2
    set n := c.toNat with hn
    interval_cases n <;> exact ⟨by decide, by decide, by decide⟩
  · rwa [pyToLower_eq_self ((Bool.not_eq_true _).mp hu)]

theorem head_dropWhile_not (p : Char → Bool) :
    ∀ (l : List Char) (d : Char), (l.dropWhile p).head? = some d → p d = false := by
  intro l
  induction l with
  | nil => intro d h; simp [List.dropWhile] at h
  | cons c tl ih =>
    intro d h
    rw [List.dropWhile_cons] at h
    by_cases hc : p c = true
    · rw [if_pos hc] at h
      exact ih d h
    · rw [if_neg hc] at h
      cases h
      exact (Bool.not_eq_true _).mp hc

theorem mem_pyStrip {p : Char → Bool} {l : List Char} {c : Char}
    (h : c ∈ pyStrip p l) : c ∈ l := by
  rw [pyStrip, List.mem_reverse] at h
  have h2 := (List.dropWhile_sublist p).subset h
  rw [List.mem_reverse] at h2
  exact (List.dropWhile_sublist p).subset h2

theorem mem_pyReplaceChar {a b : Char} {l : List Char} {c : Char}
    (h : c ∈ pyReplaceChar a b l) : c = b ∨ (c ∈ l ∧ c ≠ a) := by
  rw [pyReplaceChar] at h
  rcases List.mem_map.1 h with ⟨x, hx, hxc⟩
  by_cases hxa : x = a
  · rw [if_pos hxa] at hxc
    exact Or.inl hxc.symm
  · rw [if_neg hxa] at hxc
    exact Or.inr ⟨hxc ▸ hx, hxc ▸ hxa⟩

theorem mem_collapseAux :
    ∀ (l : List Char) (b : Bool) (c : Char),
      c ∈ collapseUnderscoresAux b l → c ∈ l := by
  intro l
  induction l with
  | nil => intro b c h; simp [collapseUnderscoresAux] at h
  | cons x tl ih =>
    intro b c h
    rw [collapseUnderscoresAux] at h
    by_cases hx : x = '_'
    · rw [if_pos hx] at h
      by_cases hb : b = true
      · rw [hb] at h
        simp only [if_true] at h
        exact List.mem_cons_of_mem x (ih true c h)
      · rw [(Bool.not_eq_true b).mp hb] at h
        simp only [Bool.false_eq_true, if_false] at h
        rcases List.mem_cons.1 h with h1 | h1
        · rw [h1, ← hx]; exact List.mem_cons_self x tl
        · exact List.mem_cons_of_mem x (ih true c h1)
    · rw [if_neg hx] at h
      rcases List.mem_cons.1 h with h1 | h1
      · rw [h1]; exact List.mem_cons_self x tl
      · exact List.mem_cons_of_mem x (ih false c h1)

theorem mem_camel2Sub_bound :
    ∀ (n : Nat) (l : List Char), l.length ≤ n → ∀ c, c ∈ camel2Sub l →
      c ∈ l ∨ c = '_' := by
  intro n
  induction n with
  | zero =>
    intro l hl c h
    have he : l = [] := List.length_eq_zero.mp (Nat.le_zero.mp hl)
    rw [he, camel2Sub] at h
    exact absurd h (List.not_mem_nil c)
  | succ n ih =>
    intro l hl c h
    rcases l with _ | ⟨x, tl⟩
    · rw [camel2Sub] at h; exact absurd h (List.not_mem_nil c)
    rcases tl with _ | ⟨d, tl2⟩
    · rw [camel2Sub] at h; exact Or.inl h
    rw [camel2Sub] at h
    split at h
    · rcases List.mem_cons.1 h with h1 | h
      · exact Or.inl (by rw [h1]; exact List.mem_cons_self _ _)
      rcases List.mem_cons.1 h with h1 | h
      · exact Or.inr h1
      rcases List.mem_cons.1 h with h1 | h
      · exact Or.inl (by rw [h1]; simp)
      · have hlen : tl2.length ≤ n := by simp only [List.length_cons] at hl; omega
        rcases ih tl2 hlen c h with h4 | h4
        · exact Or.inl (by simp [h4])
        · exact Or.inr h4
    · rcases List.mem_cons.1 h with h1 | h
      · exact Or.inl (by rw [h1]; exact List.mem_cons_self _ _)
      · have hlen : (d :: tl2).length ≤ n := by
          simp only [List.length_cons] at hl ⊢; omega
        rcases ih (d :: tl2) hlen c h with h4 | h4
        · exact Or.inl (List.mem_cons_of_mem x h4)
        · exact Or.inr h4

theorem mem_camel2Sub (l : List Char) (c : Char) (h : c ∈ camel2Sub l) :
    c ∈ l ∨ c = '_' :=
  mem_camel2Sub_bound l.length l le_rfl c h

theorem mem_camel1SubAux_bound :
    ∀ (n : Nat) (l : List Char), l.length ≤ n → ∀ (m : Cam1Mode) (c : Char),
      c ∈ camel1SubAux m l → c ∈ l ∨ c = '_' := by
  intro n
  induction n with
  | zero =>
    intro l hl m c h
    have he : l = [] := List.length_eq_zero.mp (Nat.le_zero.mp hl)
    rw [he] at h
    cases m <;> exact absurd h (List.not_mem_nil c)
  | succ n ih =>
    intro l hl m c h
    cases m with
    | g2u =>
      rcases l with _ | ⟨x, tl⟩
      · exact absurd h (List.not_mem_nil c)
      rw [camel1SubAux] at h
      rcases List.mem_cons.1 h with h1 | h
      · exact Or.inl (by rw [h1]; exact List.mem_cons_self _ _)
      · have hlen : tl.length ≤ n := by simp at hl; omega
        rcases ih tl hlen .run c h with h4 | h4
        · exact Or.inl (List.mem_cons_of_mem x h4)
        · exact Or.inr h4
    | scan =>
      rcases l with _ | ⟨x, tl⟩
      · exact absurd h (List.not_mem_nil c)
      rcases tl with _ | ⟨d, tl2⟩
      · rw [camel1SubAux] at h; exact Or.inl h
      rcases tl2 with _ | ⟨e, tl3⟩
      · rw [camel1SubAux] at h; exact Or.inl h
      rw [camel1SubAux] at h
      have hlen : (d :: e :: tl3).length ≤ n := by
        simp only [List.length_cons] at hl ⊢; omega
      split at h
      · rcases List.mem_cons.1 h with h1 | h
        · exact Or.inl (by rw [h1]; exact List.mem_cons_self _ _)
        rcases List.mem_cons.1 h with h1 | h
        · exact Or.inr h1
        · rcases ih (d :: e :: tl3) hlen .g2u c h with h4 | h4
          · exact Or.inl (List.mem_cons_of_mem x h4)
          · exact Or.inr h4
      · rcases List.mem_cons.1 h with h1 | h
        · exact Or.inl (by rw [h1]; exact List.mem_cons_self _ _)
        · rcases ih (d :: e :: tl3) hlen .scan c h with h4 | h4
          · exact Or.inl (List.mem_cons_of_mem x h4)
          · exact Or.inr h4
    | run =>
      rcases l with _ | ⟨x, tl⟩
      · exact absurd h (List.not_mem_nil c)
      rcases tl with _ | ⟨d, tl2⟩
      · rw [camel1SubAux] at h; exact Or.inl h
      rcases tl2 with _ | ⟨e, tl3⟩
      · rw [camel1SubAux] at h; exact Or.inl h
      rw [camel1SubAux] at h
      have hlen : (d :: e :: tl3).length ≤ n := by
        simp only [List.length_cons] at hl ⊢; omega
      split at h
      · rcases List.mem_cons.1 h with h1 | h
        · exact Or.inl (by rw [h1]; exact List.mem_cons_self _ _)
        · rcases ih (d :: e :: tl3) hlen .run c h with h4 | h4
          · exact Or.inl (List.mem_cons_of_mem x h4)
          · exact Or.inr h4
      · split at h
        · rcases List.mem_cons.1 h with h1 | h
          · exact Or.inl (by rw [h1]; exact List.mem_cons_self _ _)
          rcases List.mem_cons.1 h with h1 | h
          · exact Or.inr h1
          · rcases ih (d :: e :: tl3) hlen .g2u c h with h4 | h4
            · exact Or.inl (List.mem_cons_of_mem x h4)
            · exact Or.inr h4
        · rcases List.mem_cons.1 h with h1 | h
          · exact Or.inl (by rw [h1]; exact List.mem_cons_self _ _)
          · rcases ih (d :: e :: tl3) hlen .scan c h with h4 | h4
            · exact Or.inl (List.mem_cons_of_mem x h4)
            · exact Or.inr h4

theorem mem_camel1Sub (l : List Char) (c : Char) (h : c ∈ camel1Sub l) :
    c ∈ l ∨ c = '_' :=
  mem_camel1SubAux_bound l.length l le_rfl .scan c h

theorem mem_acronymSubAux :
    ∀ (l acc : List Char) (c : Char), c ∈ acronymSubAux acc l →
      c ∈ acc ∨ c ∈ l ∨ c = '_' := by
  intro l
  induction l with
  | nil =>
    intro acc c h
    rw [acronymSubAux] at h
    exact Or.inl (List.mem_reverse.1 h)
  | cons d tl ih =>
    intro acc c h
    rw [acronymSubAux] at h
    split at h
    · rcases ih (d :: acc) c h with h1 | h1 | h1
      · rcases List.mem_cons.1 h1 with h2 | h2
        · exact Or.inr (Or.inl (by rw [h2]; exact List.mem_cons_self _ _))
        · exact Or.inl h2
      · exact Or.inr (Or.inl (List.mem_cons_of_mem d h1))
      · exact Or.inr (Or.inr h1)
    · split at h
      · next hcond =>
        rcases List.mem_append.1 h with h1 | h1
        · exact Or.inl (List.mem_reverse.1 ((List.dropLast_sublist _).subset h1))
        · rcases List.mem_cons.1 h1 with h2 | h1
          · exact Or.inr (Or.inr h2)
          rcases List.mem_cons.1 h1 with h2 | h1
          · left
            rw [h2]
            rcases acc with _ | ⟨a0, acc2⟩
            · exact absurd hcond.1 (by decide)
            · simp [List.headD]
          rcases List.mem_cons.1 h1 with h2 | h1
          · exact Or.inr (Or.inl (by rw [h2]; exact List.mem_cons_self _ _))
          · rcases ih [] c h1 with h3 | h3 | h3
            · exact absurd h3 (List.not_mem_nil c)
            · exact Or.inr (Or.inl (List.mem_cons_of_mem d h3))
            · exact Or.inr (Or.inr h3)
      · rcases List.mem_append.1 h with h1 | h1
        · exact Or.inl (List.mem_reverse.1 h1)
        · rcases List.mem_cons.1 h1 with h2 | h1
          · exact Or.inr (Or.inl (by rw [h2]; exact List.mem_cons_self _ _))
          · rcases ih [] c h1 with h3 | h3 | h3
            · exact absurd h3 (List.not_mem_nil c)
            · exact Or.inr (Or.inl (List.mem_cons_of_mem d h3))
            · exact Or.inr (Or.inr h3)

theorem acronymSubAux_eq_self :
    ∀ (l : List Char), (∀ c ∈ l, pyIsUpper c = false) →
      acronymSubAux [] l = l := by
  intro l
  induction l with
  | nil => intro _; rfl
  | cons d tl ih =>
    intro h
    rw [acronymSubAux]
    have h1 : ¬ (pyIsUpper d = true) := by
      simp [h d (List.mem_cons_self d tl)]
    have h2 : ¬ (2 ≤ ([] : List Char).length ∧ pyIsLower d = true) :=
      fun hc => absurd hc.1 (by decide)
    rw [if_neg h1, if_neg h2, List.reverse_nil, List.nil_append]
    rw [ih (fun c hc => h c (List.mem_cons_of_mem d hc))]

theorem camel1SubAux_scan_bound :
    ∀ (n : Nat) (l : List Char), l.length ≤ n →
      (∀ c ∈ l, pyIsUpper c = false) → camel1SubAux .scan l = l := by
  intro n
  induction n with
  | zero =>
    intro l hl _
    have he : l = [] := List.length_eq_zero.mp (Nat.le_zero.mp hl)
    rw [he]
    rfl
  | succ n ih =>
    intro l hl h
    rcases l with _ | ⟨x, tl⟩
    · rfl
    rcases tl with _ | ⟨d, tl2⟩
    · rfl
    rcases tl2 with _ | ⟨e, tl3⟩
    · rfl
    rw [camel1SubAux]
    have h1 : ¬ (x ≠ '\n' ∧ pyIsUpper d = true ∧ pyIsLower e = true) := by
      intro hc
      exact absurd hc.2.1 (by simp [h d (by simp)])
    rw [if_neg h1]
    congr 1
    refine ih (d :: e :: tl3) ?_ (fun c hc => h c (List.mem_cons_of_mem x hc))
    simp only [List.length_cons] at hl ⊢
    omega

theorem camel1Sub_eq_self (l : List Char) (h : ∀ c ∈ l, pyIsUpper c = false) :
    camel1Sub l = l :=
  camel1SubAux_scan_bound l.length l le_rfl h

theorem camel2Sub_bound :
    ∀ (n : Nat) (l : List Char), l.length ≤ n →
      (∀ c ∈ l, pyIsUpper c = false) → camel2Sub l = l := by
  intro n
  induction n with
  | zero =>
    intro l hl _
    have he : l = [] := List.length_eq_zero.mp (Nat.le_zero.mp hl)
    rw [he]
    rfl
  | succ n ih =>
    intro l hl h
    rcases l with _ | ⟨x, tl⟩
    · rfl
    rcases tl with _ | ⟨d, tl2⟩
    · rfl
    rw [camel2Sub]
    have h1 : ¬ (((pyIsLower x || pyIsDigitCh x) && pyIsUpper d) = true) := by
      simp [h d (by simp)]
    rw [if_neg h1]
    congr 1
    refine ih (d :: tl2) ?_ (fun c hc => h c (List.mem_cons_of_mem x hc))
    simp only [List.length_cons] at hl ⊢
    omega

theorem camel2Sub_eq_self (l : List Char) (h : ∀ c ∈ l, pyIsUpper c = false) :
    camel2Sub l = l :=
  camel2Sub_bound l.length l le_rfl h

theorem head_collapseAux_true :
    ∀ (l : List Char) (d : Char),
      (collapseUnderscoresAux true l).head? = some d → d ≠ '_' := by
  intro l
  induction l with
  | nil => intro d h; simp [collapseUnderscoresAux] at h
  | cons x tl ih =>
    intro d h
    rw [collapseUnderscoresAux] at h
    by_cases hx : x = '_'
    · rw [if_pos hx, if_pos rfl] at h
      exact ih d h
    · rw [if_neg hx] at h
      cases h
      exact hx

theorem chain_collapseAux :
    ∀ (l : List Char) (b : Bool),
      (collapseUnderscoresAux b l).Chain' fun a c => ¬(a = '_' ∧ c = '_') := by
  intro l
  induction l with
  | nil => intro b; exact List.chain'_nil
  | cons x tl ih =>
    intro b
    rw [collapseUnderscoresAux]
    by_cases hx : x = '_'
    · rw [if_pos hx]
      by_cases hb : b = true
      · rw [hb, if_pos rfl]
        exact ih true
      · rw [(Bool.not_eq_true b).mp hb, if_neg (by decide)]
        rw [List.chain'_cons']
        refine ⟨fun y hy => ?_, ih true⟩
        intro hc
        exact head_collapseAux_true tl y hy hc.2
    · rw [if_neg hx]
      rw [List.chain'_cons']
      exact ⟨fun y _ hc => hx hc.1, ih false⟩

theorem collapseAux_eq_self :
    ∀ (l : List Char) (b : Bool),
      (b = true → ∀ d, l.head? = some d → d ≠ '_') →
      l.Chain' (fun a c => ¬(a = '_' ∧ c = '_')) →
      collapseUnderscoresAux b l = l := by
  intro l
  induction l with
  | nil => intro b _ _; rfl
  | cons x tl ih =>
    intro b hb hch
    rcases List.chain'_cons'.mp hch with ⟨hhd, htl⟩
    rw [collapseUnderscoresAux]
    by_cases hx : x = '_'
    · rw [if_pos hx]
      have hbf : b = false := by
        cases b
        · rfl
        · exact absurd hx (hb rfl x rfl)
      rw [hbf, if_neg (by decide)]
      rw [← hx]
      congr 1
      refine ih true (fun _ d hd hde => ?_) htl
      exact (hhd d hd) ⟨hx, hde⟩
    · rw [if_neg hx]
      congr 1
      exact ih false (fun hfalse => absurd hfalse (by decide)) htl

theorem collapseUnderscores_eq_self (l : List Char)
    (h : l.Chain' fun a c => ¬(a = '_' ∧ c = '_')) :
    collapseUnderscores l = l :=
  collapseAux_eq_self l false (fun hfalse => absurd hfalse (by decide)) h

theorem map_pyToLower_eq_self (l : List Char)
    (h : ∀ c ∈ l, pyIsUpper c = false) : l.map pyToLower = l := by
  have h1 : ∀ c ∈ l, pyToLower c = c := fun c hc => pyToLower_eq_self (h c hc)
  calc l.map pyToLower = l.map (fun c => c) := List.map_congr_left h1
    _ = l := List.map_id l

theorem pyReplaceChar_eq_self (a b : Char) (l : List Char)
    (h : ∀ c ∈ l, c ≠ a) : pyReplaceChar a b l = l := by
  rw [pyReplaceChar]
  have h1 : ∀ c ∈ l, (if c = a then b else c) = c := fun c hc => if_neg (h c hc)
  calc List.map (fun c => if c = a then b else c) l
      = List.map (fun c => c) l := List.map_congr_left h1
    _ = l := List.map_id l

theorem pyStrip_isInfix (p : Char → Bool) (l : List Char) :
    pyStrip p l <:+: l := by
  have hs2 : List.IsSuffix (l.dropWhile p) l := List.dropWhile_suffix p
  have hs1 : List.IsSuffix ((l.dropWhile p).reverse.dropWhile p)
      (l.dropWhile p).reverse := List.dropWhile_suffix p
  obtain ⟨t2, ht2⟩ := hs2
  obtain ⟨t1, ht1⟩ := hs1
  refine ⟨t2, t1.reverse, ?_⟩
  rw [pyStrip, List.append_assoc, ← List.reverse_append, ht1,
    List.reverse_reverse, ht2]

theorem pyStrip_getLast_not (p : Char → Bool) (l : List Char) :
    ∀ d, (pyStrip p l).getLast? = some d → p d = false := by
  intro d h
  rw [pyStrip, List.getLast?_reverse] at h
  exact head_dropWhile_not p _ d h

theorem pyStrip_head_not (p : Char → Bool) (l : List Char) :
    ∀ d, (pyStrip p l).head? = some d → p d = false := by
  intro d h
  rw [pyStrip, List.head?_reverse] at h
  by_cases hv : (l.dropWhile p).reverse.dropWhile p = []
  · rw [hv] at h
    simp at h
  · have hs1 : List.IsSuffix ((l.dropWhile p).reverse.dropWhile p)
        (l.dropWhile p).reverse := List.dropWhile_suffix p
    obtain ⟨t1, ht1⟩ := hs1
    have h2 : (l.dropWhile p).reverse.getLast? = some d := by
      rw [← ht1, List.getLast?_append_of_ne_nil t1 hv]
      exact h
    rw [List.getLast?_reverse] at h2
    exact head_dropWhile_not p l d h2

theorem dropWhile_eq_self_of_head (p : Char → Bool) (l : List Char)
    (h : ∀ d, l.head? = some d → p d = false) : l.dropWhile p = l := by
  rcases l with _ | ⟨c, tl⟩
  · rfl
  · rw [List.dropWhile_cons, if_neg (by simp [h c rfl])]

theorem pyStrip_eq_self (p : Char → Bool) (l : List Char)
    (h1 : ∀ d, l.head? = some d → p d = false)
    (h2 : ∀ d, l.getLast? = some d → p d = false) : pyStrip p l = l := by
  rw [pyStrip, dropWhile_eq_self_of_head p l h1,
    dropWhile_eq_self_of_head p l.reverse
      (fun d hd => h2 d (by rwa [List.head?_reverse] at hd)),
    List.reverse_reverse]

theorem pyStrip_eq_self_of_all (p : Char → Bool) (l : List Char)
    (h : ∀ c ∈ l, p c = false) : pyStrip p l = l :=
  pyStrip_eq_self p l (fun d hd => h d (List.mem_of_mem_head? hd))
    (fun d hd => h d (List.mem_of_mem_getLast? hd))

/-- The output of `sanitize_column_name`, spelled out stage by stage. -/
theorem sanitize_data_eq (s : String) :
    (sanitize_column_name s).data =
      pyStrip (fun ch => decide (ch = '_'))
        (List.map pyToLower
          (collapseUnderscores
            (camel2Sub
              (camel1Sub
                (acronymSub
                  (pyReplaceChar '.' '_'
                    (pyReplaceChar '-' '_'
                      (pyReplaceChar ' ' '_'
                        (pyStrip pyIsSpace s.data))))))))) := rfl

theorem sanitize_no_upper (s : String) :
    ∀ c ∈ (sanitize_column_name s).data, pyIsUpper c = false := by
  intro c hc
  rw [sanitize_data_eq] at hc
  have h1 := mem_pyStrip hc
  rcases List.mem_map.1 h1 with ⟨x, _, hxc⟩
  rw [← hxc]
  exact pyToLower_not_upper x

theorem sanitize_chars_src (s : String) :
    ∀ c ∈ (sanitize_column_name s).data,
      c = '_' ∨ ∃ x, x ∈ s.data ∧ c = pyToLower x ∧
        x ≠ ' ' ∧ x ≠ '-' ∧ x ≠ '.' := by
  intro c hc
  rw [sanitize_data_eq] at hc
  have h1 := mem_pyStrip hc
  rcases List.mem_map.1 h1 with ⟨x, hx, hxc⟩
  by_cases hxu : x = '_'
  · left
    rw [← hxc, hxu]
    decide
  · rw [collapseUnderscores] at hx
    have hx2 := mem_collapseAux _ false x hx
    have h3 := (mem_camel2Sub _ x hx2).resolve_right hxu
    have h4 := (mem_camel1Sub _ x h3).resolve_right hxu
    rw [acronymSub] at h4
    have h5 := mem_acronymSubAux _ [] x h4
    have h5b := (h5.resolve_left (List.not_mem_nil x)).resolve_right hxu
    have h6 := (mem_pyReplaceChar h5b).resolve_left hxu
    have h7 := (mem_pyReplaceChar h6.1).resolve_left hxu
    have h8 := (mem_pyReplaceChar h7.1).resolve_left hxu
    exact Or.inr ⟨x, mem_pyStrip h8.1, hxc.symm, h8.2, h7.2, h6.2⟩

theorem sanitize_chain (s : String) :
    (sanitize_column_name s).data.Chain' fun a c => ¬(a = '_' ∧ c = '_') := by
  rw [sanitize_data_eq]
  refine List.Chain'.infix ?_ (pyStrip_isInfix _ _)
  rw [List.chain'_map, collapseUnderscores]
  exact (chain_collapseAux _ false).imp
    (fun a b hab hc =>
      hab ⟨eq_underscore_of_pyToLower a hc.1, eq_underscore_of_pyToLower b hc.2⟩)

/-- C10: the column sanitizer is not idempotent. On the input consisting
of an underscore, a tab and a letter, the first pass strips the leading
underscore, exposing the tab at the front; the second pass strips the
tab as whitespace, so the two results differ. -/
theorem C10_counterexample :
    sanitize_column_name (sanitize_column_name ("_\ta")) ≠
      sanitize_column_name ("_\ta") := by decide

/-- C10 (amended): `sanitize_column_name` is idempotent on every string
whose whitespace characters are all plain spaces. The first pass then
removes or replaces every space, uppercase letter, hyphen, dot, double
underscore and edge underscore, and each stage of the second pass is the
identity on such output. -/
theorem C10_amended_sanitize_idempotent (s : String)
    (H : ∀ c ∈ s.data, pyIsSpace c = true → c = ' ') :
    sanitize_column_name (sanitize_column_name s) = sanitize_column_name s := by
  have hupper := sanitize_no_upper s
  have hsrc := sanitize_chars_src s
  have hchain := sanitize_chain s
  have hgood : ∀ c ∈ (sanitize_column_name s).data,
      pyIsSpace c = false ∧ c ≠ '-' ∧ c ≠ '.' := by
    intro c hc
    rcases hsrc c hc with h1 | ⟨x, hx, hcx, hx1, hx2, hx3⟩
    · rw [h1]
      exact ⟨by decide, by decide, by decide⟩
    · have hxs : pyIsSpace x = false := by
        cases hps : pyIsSpace x
        · rfl
        · exact absurd (H x hx hps) hx1
      rw [hcx]
      exact pyToLower_good x ⟨hxs, hx2, hx3⟩
  have hnsp : ∀ c ∈ (sanitize_column_name s).data, c ≠ ' ' := by
    intro c hc heq
    have h1 := (hgood c hc).1
    rw [heq] at h1
    exact absurd h1 (by decide)
  have hhead : ∀ d, (sanitize_column_name s).data.head? = some d →
      decide (d = '_') = false := by
    intro d hd
    rw [sanitize_data_eq] at hd
    exact pyStrip_head_not _ _ d hd
  have hlast : ∀ d, (sanitize_column_name s).data.getLast? = some d →
      decide (d = '_') = false := by
    intro d hd
    rw [sanitize_data_eq] at hd
    exact pyStrip_getLast_not _ _ d hd
  show String.mk (pyStrip (fun ch => decide (ch = '_'))
      (List.map pyToLower
        (collapseUnderscores
          (camel2Sub
            (camel1Sub
              (acronymSub
                (pyReplaceChar '.' '_'
                  (pyReplaceChar '-' '_'
                    (pyReplaceChar ' ' '_'
                      (pyStrip pyIsSpace (sanitize_column_name s).data)))))))))) =
    sanitize_column_name s
  rw [pyStrip_eq_self_of_all pyIsSpace _ (fun c hc => (hgood c hc).1)]
  rw [pyReplaceChar_eq_self ' ' '_' _ hnsp]
  rw [pyReplaceChar_eq_self ('-') '_' _ (fun c hc => (hgood c hc).2.1)]
  rw [pyReplaceChar_eq_self ('.') '_' _ (fun c hc => (hgood c hc).2.2)]
  rw [acronymSub, acronymSubAux_eq_self _ hupper]
  rw [camel1Sub_eq_self _ hupper]
  rw [camel2Sub_eq_self _ hupper]
  rw [collapseUnderscores_eq_self _ hchain]
  rw [map_pyToLower_eq_self _ hupper]
  rw [pyStrip_eq_self _ _ hhead hlast]

/-- Witness for C10 (amended): a typical raw header containing only
plain-space whitespace is sanitized idempotently. -/
theorem C10_amended_sanitize_idempotent_witness :
    (∀ c ∈ ("Call Number").data, pyIsSpace c = true → c = ' ') ∧
    sanitize_column_name (sanitize_column_name ("Call Number")) =
      sanitize_column_name ("Call Number") :=
  ⟨by decide, C10_amended_sanitize_idempotent ("Call Number") (by decide)⟩
